import Mathlib

/-!
Dense row-major matrices: a shallow embedding of `TASK1.cpp`.

The class template `Matrix<T>` owns a buffer `data_` of `rows_ * cols_` elements laid out
row-major.  The embedding keeps the three data members and translates every member function
and the two free functions (`transpose`, `trace`) statement by statement.

Modelling conventions.

* `size_t` is a 64-bit unsigned integer: shapes and indices are natural numbers, and every
  `size_t` product or sum the source computes is reduced modulo `2 ^ 64`.
* `std::unique_ptr<T[]>` is a list of elements; the null pointer of a moved-from matrix and
  an array of length zero are both the empty list (neither has an element to access).
* `data_[k]` has no bounds check.  An access with `k` outside the allocated array is
  undefined behaviour in C++; the embedding stops with `Abort.undefined` there.
* `throw std::invalid_argument(msg)` stops with `Abort.thrown`.
* The element type is a parameter, as in the template, together with its `+`, `-` and `*`,
  each of which may have undefined behaviour.  The program instantiates the template at
  `int`: a 32-bit signed integer whose arithmetic is undefined on overflow, so that `x + y`,
  `x - y` and `x * y` stop with `Abort.undefined` when the mathematical result is not an
  `int`.  Every theorem about arithmetic is stated for `Matrix int`.
* Exhaustion of memory (`std::bad_alloc`) is not modelled.
-/

namespace Task1

/-- The number of values of `size_t`. -/
def SIZE_MOD : Nat := 2 ^ 64

/-- The least value of `int`. -/
def INT_MIN : Int := -2147483648

/-- The greatest value of `int`. -/
def INT_MAX : Int := 2147483647

/-- The mathematical integers that are values of `int`. -/
def InRange (x : Int) : Prop := INT_MIN ≤ x ∧ x ≤ INT_MAX

instance (x : Int) : Decidable (InRange x) := by
  unfold InRange
  infer_instance

/-- The C++ type `int`: the integers from `INT_MIN` to `INT_MAX`. -/
structure int where
  val : Int
  inRange : InRange val
  deriving DecidableEq

/-- The conversion of an integer to `int`: the value itself when it is in range, and in
general the `int` congruent to it modulo `2 ^ 32`. -/
def int.ofInt (x : Int) : int :=
  { val := (x - INT_MIN) % 4294967296 + INT_MIN
    inRange := by
      have h1 := Int.emod_nonneg (x - INT_MIN) (by decide : (4294967296 : Int) ≠ 0)
      have h2 := Int.emod_lt_of_pos (x - INT_MIN) (by decide : (0 : Int) < 4294967296)
      unfold InRange INT_MAX
      unfold INT_MIN at h1 h2 ⊢
      omega }

instance : Zero int := ⟨int.ofInt 0⟩

/-- The list of `int` values written as integer literals. -/
def ints (l : List Int) : List int := l.map int.ofInt

/-- The exception classes declared by `<stdexcept>`, the header the source includes. -/
inductive ExceptionClass where
  | logic_error
  | domain_error
  | invalid_argument
  | length_error
  | out_of_range
  | runtime_error
  | range_error
  | overflow_error
  | underflow_error
  deriving DecidableEq, Repr

/-- A thrown exception object: its class and the message returned by `what()`. -/
structure Exception where
  cls : ExceptionClass
  what : String
  deriving DecidableEq, Repr

/-- The two ways in which a call does not return normally. -/
inductive Abort where
  | thrown (e : Exception)
  | undefined
  deriving DecidableEq, Repr

/-- The built-in `x + y` on `int`: undefined behaviour when the sum is not an `int`. -/
def int.add (x y : int) : Except Abort int :=
  if h : InRange (x.val + y.val) then .ok { val := x.val + y.val, inRange := h }
  else .error .undefined

/-- The built-in `x - y` on `int`: undefined behaviour when the difference is not an
`int`. -/
def int.sub (x y : int) : Except Abort int :=
  if h : InRange (x.val - y.val) then .ok { val := x.val - y.val, inRange := h }
  else .error .undefined

/-- The built-in `x * y` on `int`: undefined behaviour when the product is not an `int`. -/
def int.mul (x y : int) : Except Abort int :=
  if h : InRange (x.val * y.val) then .ok { val := x.val * y.val, inRange := h }
  else .error .undefined

/-- What the template requires of its element type `T`: a zero (value-initialisation, and
the conversion of the literal `0`) and the operators `+`, `-`, `*`. -/
class Arithmetic (T : Type) extends Zero T where
  add : T → T → Except Abort T
  sub : T → T → Except Abort T
  mul : T → T → Except Abort T

instance : Arithmetic int where
  add := int.add
  sub := int.sub
  mul := int.mul

/-- The data members of `Matrix<T>`. -/
structure Matrix (T : Type) where
  rows_ : Nat
  cols_ : Nat
  data_ : List T
  deriving DecidableEq, Repr

variable {T : Type}

/-- Unchecked read `data[k]` of a raw array. -/
def index (data : List T) (k : Nat) : Except Abort T :=
  match data[k]? with
  | some v => .ok v
  | none => .error .undefined

/-- Unchecked write `data[k] = v` to a raw array. -/
def indexAssign (data : List T) (k : Nat) (v : T) : Except Abort (List T) :=
  if k < data.length then .ok (data.set k v) else .error .undefined

/-- The loop `for (size_t i = lo; i < lo + count; ++i) body`, threading the variables the
body updates; it stops at the first iteration that does not complete. -/
def forLoop {σ : Type} (lo : Nat) : Nat → (Nat → σ → Except Abort σ) → σ → Except Abort σ
  | 0, _, s => .ok s
  | n + 1, body, s =>
    match body lo s with
    | .ok s' => forLoop (lo + 1) n body s'
    | .error e => .error e

/-- The objects of type `Matrix<T>` that exist, by address. -/
def Memory (T : Type) : Type := Nat → Matrix T

/-- The memory after the object at address `p` has been given the value `m`. -/
def Memory.store (mem : Memory T) (p : Nat) (m : Matrix T) : Memory T :=
  fun q => if q = p then m else mem q

deriving instance DecidableEq for Except

namespace Matrix

/-- The constructor `Matrix(size_t rows, size_t cols)`: `make_unique<T[]>(rows * cols)`
value-initialises `rows * cols` elements, the product being a `size_t` product. -/
def new [Zero T] (rows cols : Nat) : Matrix T :=
  { rows_ := rows, cols_ := cols, data_ := List.replicate ((rows * cols) % SIZE_MOD) 0 }

/-- The member function `size_t rows() const`. -/
def rows (m : Matrix T) : Nat := m.rows_

/-- The member function `size_t cols() const`. -/
def cols (m : Matrix T) : Nat := m.cols_

/-- The `size_t` expression `row * cols_ + col` of `operator()`. -/
def offset (m : Matrix T) (row col : Nat) : Nat :=
  (row * m.cols_ + col) % SIZE_MOD

/-- The read access `const T& operator()(size_t row, size_t col) const`:
`return data_[row * cols_ + col];`. -/
def operator_paren (m : Matrix T) (row col : Nat) : Except Abort T :=
  index m.data_ (m.offset row col)

/-- The access `T& operator()(size_t row, size_t col)` followed by an assignment through
the returned reference: `m(row, col) = v`. -/
def operator_paren_assign (m : Matrix T) (row col : Nat) (v : T) : Except Abort (Matrix T) :=
  match indexAssign m.data_ (m.offset row col) v with
  | .ok d => .ok { m with data_ := d }
  | .error e => .error e

/-- The member function `Matrix operator+(const Matrix& other) const`. -/
def operator_plus [Arithmetic T] (self other : Matrix T) : Except Abort (Matrix T) :=
  if self.rows_ ≠ other.rows_ ∨ self.cols_ ≠ other.cols_ then
    .error (.thrown ⟨.invalid_argument, "Matrix dimensions must agree for addition."⟩)
  else
    forLoop 0 ((self.rows_ * self.cols_) % SIZE_MOD)
      (fun i result => do
        let x ← index self.data_ i
        let y ← index other.data_ i
        let s ← Arithmetic.add x y
        let d ← indexAssign result.data_ i s
        pure { result with data_ := d })
      (new self.rows_ self.cols_)

/-- The member function `Matrix operator-(const Matrix& other) const`. -/
def operator_minus [Arithmetic T] (self other : Matrix T) : Except Abort (Matrix T) :=
  if self.rows_ ≠ other.rows_ ∨ self.cols_ ≠ other.cols_ then
    .error (.thrown ⟨.invalid_argument, "Matrix dimensions must agree for subtraction."⟩)
  else
    forLoop 0 ((self.rows_ * self.cols_) % SIZE_MOD)
      (fun i result => do
        let x ← index self.data_ i
        let y ← index other.data_ i
        let s ← Arithmetic.sub x y
        let d ← indexAssign result.data_ i s
        pure { result with data_ := d })
      (new self.rows_ self.cols_)

/-- The member function `Matrix operator*(const Matrix& other) const`; the statement
`result(i, j) += (*this)(i, k) * other(k, j)` multiplies, then adds to the element read
from `result`, then writes the sum back. -/
def operator_star [Arithmetic T] (self other : Matrix T) : Except Abort (Matrix T) :=
  if self.cols_ ≠ other.rows_ then
    .error (.thrown ⟨.invalid_argument, "Matrix dimensions must agree for multiplication."⟩)
  else
    forLoop 0 self.rows_
      (fun i result =>
        forLoop 0 other.cols_
          (fun j result => do
            let result ← result.operator_paren_assign i j 0
            forLoop 0 self.cols_
              (fun k result => do
                let x ← self.operator_paren i k
                let y ← other.operator_paren k j
                let p ← Arithmetic.mul x y
                let r ← result.operator_paren i j
                let s ← Arithmetic.add r p
                result.operator_paren_assign i j s)
              result)
          result)
      (new self.rows_ other.cols_)

/-- The move constructor `Matrix(Matrix&& other) noexcept`: the new object takes the shape
and the buffer of `other`, and `other` is left with `rows_ = 0`, `cols_ = 0` and a null
`data_`.  The pair is the constructed object and `other` after the call. -/
def move_construct (other : Matrix T) : Matrix T × Matrix T :=
  ({ rows_ := other.rows_, cols_ := other.cols_, data_ := other.data_ },
   { rows_ := 0, cols_ := 0, data_ := [] })

/-- The move assignment `Matrix& operator=(Matrix&& other) noexcept`, called on the object at
address `this_` with the object at address `other`: the statements of the body in order,
under the guard `this != &other`.  `data_ = std::move(other.data_)` hands the buffer of
`other` over and leaves `other.data_` null. -/
def operator_assign_move (mem : Memory T) (this_ other : Nat) : Memory T :=
  if this_ ≠ other then
    let mem1 := mem.store this_ { mem this_ with rows_ := (mem other).rows_ }
    let mem2 := mem1.store this_ { mem1 this_ with cols_ := (mem1 other).cols_ }
    let mem3 := (mem2.store this_ { mem2 this_ with data_ := (mem2 other).data_ }).store other
      { mem2 other with data_ := [] }
    let mem4 := mem3.store other { mem3 other with rows_ := 0 }
    mem4.store other { mem4 other with cols_ := 0 }
  else
    mem

/-- The declaration `Matrix<int> sum = mat1 + mat2;` of `main`, on objects in memory:
`operator+` is called on the object at address `this_` with the object at address `other`,
and what it returns becomes the new object at address `dst`.  The member function is
`const` and takes a `const Matrix&`: it has no statement that writes to either operand. -/
def declare_sum [Arithmetic T] (mem : Memory T) (this_ other dst : Nat) :
    Except Abort (Memory T) :=
  match (mem this_).operator_plus (mem other) with
  | .ok result => .ok (mem.store dst result)
  | .error e => .error e

/-- The declaration `Matrix<int> difference = a - b;`, on objects in memory, as
`declare_sum`. -/
def declare_difference [Arithmetic T] (mem : Memory T) (this_ other dst : Nat) :
    Except Abort (Memory T) :=
  match (mem this_).operator_minus (mem other) with
  | .ok result => .ok (mem.store dst result)
  | .error e => .error e

end Matrix

/-- The free function
`template<typename T> Matrix<T> transpose(const Matrix<T>& matrix)`. -/
def transpose [Zero T] (matrix : Matrix T) : Except Abort (Matrix T) :=
  forLoop 0 matrix.rows
    (fun i result =>
      forLoop 0 matrix.cols
        (fun j result => do
          let v ← matrix.operator_paren i j
          result.operator_paren_assign j i v)
        result)
    (Matrix.new matrix.cols matrix.rows)

/-- The free function `template<typename T> T trace(const Matrix<T>& matrix)`. -/
def trace [Arithmetic T] (matrix : Matrix T) : Except Abort T :=
  if matrix.rows ≠ matrix.cols then
    .error (.thrown ⟨.invalid_argument, "Matrix must be square to compute trace."⟩)
  else
    forLoop 0 matrix.rows
      (fun i sum => do
        let v ← matrix.operator_paren i i
        Arithmetic.add sum v)
      0

/-- The representation invariant of the data model: the buffer holds exactly `rows * cols`
elements, and the shape and the element count are `size_t` values. -/
def Matrix.Valid (m : Matrix T) : Prop :=
  m.rows_ < SIZE_MOD ∧ m.cols_ < SIZE_MOD ∧ m.rows_ * m.cols_ < SIZE_MOD ∧
    m.data_.length = m.rows_ * m.cols_

instance (m : Matrix T) : Decidable m.Valid := by
  unfold Matrix.Valid
  infer_instance

/-- What the constructor establishes of the object it builds: the buffer holds
`rows * cols` elements, the product being the `size_t` product. -/
def Matrix.Allocated (m : Matrix T) : Prop :=
  m.data_.length = (m.rows_ * m.cols_) % SIZE_MOD

instance (m : Matrix T) : Decidable m.Allocated := by
  unfold Matrix.Allocated
  infer_instance

/-- The element of `m` at `(i, j)` as read by `operator()`, and zero where that read does
not return. -/
def Matrix.entry [Zero T] (m : Matrix T) (i j : Nat) : T :=
  match m.operator_paren i j with
  | .ok v => v
  | .error _ => 0

/-- The mathematical sum `a(i,0)*b(0,j) + a(i,1)*b(1,j) + ... + a(i,n-1)*b(n-1,j)`,
accumulated left to right in ascending `k`, starting from zero. -/
def Matrix.dot (a b : Matrix int) (i j n : Nat) : Int :=
  (List.range n).foldl (fun acc k => acc + (a.entry i k).val * (b.entry k j).val) 0

/-- The mathematical sum `m(0,0) + m(1,1) + ... + m(n-1,n-1)`, accumulated in ascending
`i`, starting from zero. -/
def Matrix.diagonalSum (m : Matrix int) (n : Nat) : Int :=
  (List.range n).foldl (fun acc i => acc + (m.entry i i).val) 0

/-- No sum of two corresponding buffer elements of `a` and `b` leaves the range of `int`. -/
def Matrix.PlusInRange (a b : Matrix int) : Prop :=
  ∀ p ∈ a.data_.zip b.data_, InRange (p.1.val + p.2.val)

instance (a b : Matrix int) : Decidable (a.PlusInRange b) := by
  unfold Matrix.PlusInRange
  infer_instance

/-- No difference of two corresponding buffer elements of `a` and `b` leaves the range of
`int`. -/
def Matrix.MinusInRange (a b : Matrix int) : Prop :=
  ∀ p ∈ a.data_.zip b.data_, InRange (p.1.val - p.2.val)

instance (a b : Matrix int) : Decidable (a.MinusInRange b) := by
  unfold Matrix.MinusInRange
  infer_instance

/-- No product `a(i,k) * b(k,j)` and no partial sum of the products of a row of `a` with a
column of `b` leaves the range of `int`. -/
def Matrix.StarInRange (a b : Matrix int) : Prop :=
  ∀ i, i < a.rows → ∀ j, j < b.cols → ∀ k, k < a.cols →
    InRange ((a.entry i k).val * (b.entry k j).val) ∧ InRange (a.dot b i j (k + 1))

instance (a b : Matrix int) : Decidable (a.StarInRange b) := by
  unfold Matrix.StarInRange
  infer_instance

/-- No partial sum `m(0,0) + ... + m(i,i)` of the diagonal leaves the range of `int`. -/
def Matrix.TraceInRange (m : Matrix int) : Prop :=
  ∀ i, i < m.rows → InRange (m.diagonalSum (i + 1))

instance (m : Matrix int) : Decidable m.TraceInRange := by
  unfold Matrix.TraceInRange
  infer_instance

/-- The matrices of `main`. -/
def mat1 : Matrix int := { rows_ := 2, cols_ := 2, data_ := ints [1, 2, 3, 4] }

/-- The second matrix of `main`. -/
def mat2 : Matrix int := { rows_ := 2, cols_ := 2, data_ := ints [5, 6, 7, 8] }

/-- The matrix built by `Matrix<int> a(4294967296, 1)`: a column of `2 ^ 32` zeros. -/
def tall : Matrix int := Matrix.new (2 ^ 32) 1

/-- The matrix built by `Matrix<int> b(1, 4294967296)`: a row of `2 ^ 32` zeros. -/
def wide : Matrix int := Matrix.new 1 (2 ^ 32)

/-- A `(0, 0)` matrix, as built by `Matrix<int> e(0, 0)`. -/
def empty00 : Matrix int := Matrix.new 0 0

/-- A `(0, 3)` matrix, as built by `Matrix<int> z(0, 3)`. -/
def empty03 : Matrix int := Matrix.new 0 3

/-- A `(2, 3)` matrix with the elements `1 .. 6`. -/
def mat23 : Matrix int := { rows_ := 2, cols_ := 3, data_ := ints [1, 2, 3, 4, 5, 6] }

/-- A `(3, 2)` matrix with the elements `1 .. 6`. -/
def mat32 : Matrix int := { rows_ := 3, cols_ := 2, data_ := ints [1, 2, 3, 4, 5, 6] }

/-- The class of the exception with which a call ends, when it ends with one. -/
def thrownClass {α : Type} : Except Abort α → Option ExceptionClass
  | .error (.thrown e) => some e.cls
  | _ => none

/-- The matrix built by `Matrix<int> w(4294967296, 4294967296)`: the `size_t` product of
the shape is `2 ^ 64`, which wraps to `0`. -/
def wrapped : Matrix int := Matrix.new (2 ^ 32) (2 ^ 32)

/-- The `(2, 2)` matrix with `1` on the diagonal and `0` elsewhere. -/
def identity2 : Matrix int := { rows_ := 2, cols_ := 2, data_ := ints [1, 0, 0, 1] }

/-- The `(3, 3)` matrix with `1` on the diagonal and `0` elsewhere. -/
def identity3 : Matrix int :=
  { rows_ := 3, cols_ := 3, data_ := ints [1, 0, 0, 0, 1, 0, 0, 0, 1] }

/-- A valid square matrix of size `n` that holds `1` on the diagonal and `0` elsewhere. -/
def Matrix.IsIdentity (I : Matrix int) (n : Nat) : Prop :=
  I.Valid ∧ I.rows = n ∧ I.cols = n ∧
    ∀ i, i < n → ∀ j, j < n →
      I.operator_paren i j = .ok (if i = j then int.ofInt 1 else int.ofInt 0)

/-- A memory with `mat1` at address `0`, `mat23` at address `1` and `(0, 0)` matrices
elsewhere. -/
def memory0 : Memory int := fun p => if p = 0 then mat1 else if p = 1 then mat23 else empty00

/-- The `(1, 1)` matrix `[[2147483647]]`, holding `INT_MAX`. -/
def matMax : Matrix int := { rows_ := 1, cols_ := 1, data_ := ints [2147483647] }

/-- The `(1, 1)` matrix `[[-2147483648]]`, holding `INT_MIN`. -/
def matMin : Matrix int := { rows_ := 1, cols_ := 1, data_ := ints [-2147483648] }

/-- The `(1, 1)` matrix `[[1]]`. -/
def matOne : Matrix int := { rows_ := 1, cols_ := 1, data_ := ints [1] }

/-- The `(1, 1)` matrix `[[65536]]`. -/
def mat65536 : Matrix int := { rows_ := 1, cols_ := 1, data_ := ints [65536] }

/-- The `(2, 2)` matrix `[[2147483647, 0], [0, 1]]`. -/
def matDiagMax : Matrix int := { rows_ := 2, cols_ := 2, data_ := ints [2147483647, 0, 0, 1] }

/-! ## Loops and raw arrays -/

theorem forLoop_succ {σ : Type} (lo n : Nat) (body : Nat → σ → Except Abort σ) (s : σ) :
    forLoop lo (n + 1) body s =
      (match body lo s with
      | .ok s' => forLoop (lo + 1) n body s'
      | .error e => .error e) := rfl

/-- Invariant rule for a counted loop whose every iteration completes. -/
theorem forLoop_inv {σ : Type} (P : Nat → σ → Prop) (body : Nat → σ → Except Abort σ) :
    ∀ (n lo : Nat) (s : σ), P lo s →
      (∀ i t, lo ≤ i → i < lo + n → P i t → ∃ t', body i t = .ok t' ∧ P (i + 1) t') →
      ∃ s', forLoop lo n body s = .ok s' ∧ P (lo + n) s' := by
  intro n
  induction n with
  | zero =>
    intro lo s h0 _
    exact ⟨s, rfl, by simpa using h0⟩
  | succ n ih =>
    intro lo s h0 hstep
    obtain ⟨t, ht, hP⟩ := hstep lo s (Nat.le_refl _) (by omega) h0
    obtain ⟨s', hs', hP'⟩ := ih (lo + 1) t hP (fun i u hi hlt hu => hstep i u (by omega) (by omega) hu)
    refine ⟨s', ?_, ?_⟩
    · rw [forLoop_succ, ht]
      exact hs'
    · have : lo + (n + 1) = lo + 1 + n := by omega
      rw [this]
      exact hP'

/-- A loop whose first iteration does not complete does not complete. -/
theorem forLoop_first_error {σ : Type} (lo n : Nat) (body : Nat → σ → Except Abort σ) (s : σ)
    (e : Abort) (hn : 0 < n) (h : body lo s = .error e) : forLoop lo n body s = .error e := by
  obtain ⟨k, rfl⟩ : ∃ k, n = k + 1 := ⟨n - 1, by omega⟩
  rw [forLoop_succ, h]

theorem index_of_lt (data : List T) (k : Nat) (h : k < data.length) :
    index data k = .ok (data.get ⟨k, h⟩) := by
  simp [index, List.getElem?_eq_getElem h]

theorem index_eq_ok_iff (data : List T) (k : Nat) (v : T) :
    index data k = .ok v ↔ data[k]? = some v := by
  unfold index
  cases h : data[k]? <;> simp

theorem index_of_le (data : List T) (k : Nat) (h : data.length ≤ k) :
    index data k = .error .undefined := by
  simp [index, List.getElem?_eq_none h]

theorem indexAssign_of_lt (data : List T) (k : Nat) (v : T) (h : k < data.length) :
    indexAssign data k v = .ok (data.set k v) := by
  simp [indexAssign, h]

theorem indexAssign_of_le (data : List T) (k : Nat) (v : T) (h : data.length ≤ k) :
    indexAssign data k v = .error .undefined := by
  simp [indexAssign, Nat.not_lt.mpr h]

/-! ## Row-major offsets -/

theorem offset_lt {r c i j : Nat} (hi : i < r) (hj : j < c) : i * c + j < r * c := by
  have h1 : (i + 1) * c ≤ r * c := Nat.mul_le_mul_right c hi
  have h2 : (i + 1) * c = i * c + c := by ring
  omega

theorem offset_inj {c i j i' j' : Nat} (hj : j < c) (hj' : j' < c)
    (h : i * c + j = i' * c + j') : i = i' ∧ j = j' := by
  have hc : 0 < c := by omega
  have hd : (j + i * c) / c = (j' + i' * c) / c := by rw [Nat.add_comm, h, Nat.add_comm]
  rw [Nat.add_mul_div_right _ _ hc, Nat.add_mul_div_right _ _ hc, Nat.div_eq_of_lt hj,
    Nat.div_eq_of_lt hj'] at hd
  have hi : i = i' := by omega
  subst hi
  exact ⟨rfl, by omega⟩

namespace Matrix

theorem Valid.offset_eq {m : Matrix T} (hv : m.Valid) {i j : Nat} (hi : i < m.rows_)
    (hj : j < m.cols_) : m.offset i j = i * m.cols_ + j := by
  have := offset_lt hi hj
  obtain ⟨_, _, h3, _⟩ := hv
  exact Nat.mod_eq_of_lt (by omega)

theorem Valid.offset_lt_length {m : Matrix T} (hv : m.Valid) {i j : Nat} (hi : i < m.rows_)
    (hj : j < m.cols_) : i * m.cols_ + j < m.data_.length := by
  have := offset_lt hi hj
  obtain ⟨_, _, _, h4⟩ := hv
  omega

/-- An in-bounds read of a valid matrix returns the stored element. -/
theorem Valid.getElem?_eq [Zero T] {m : Matrix T} (hv : m.Valid) {i j : Nat} (hi : i < m.rows_)
    (hj : j < m.cols_) : m.data_[i * m.cols_ + j]? = some (m.entry i j) := by
  have hlt := hv.offset_lt_length hi hj
  simp [entry, operator_paren, index, hv.offset_eq hi hj, List.getElem?_eq_getElem hlt]

theorem Valid.paren_eq [Zero T] {m : Matrix T} (hv : m.Valid) {i j : Nat} (hi : i < m.rows_)
    (hj : j < m.cols_) : m.operator_paren i j = .ok (m.entry i j) := by
  unfold operator_paren
  rw [hv.offset_eq hi hj, index_eq_ok_iff]
  exact hv.getElem?_eq hi hj

/-- An in-bounds write to a valid matrix changes exactly the addressed element. -/
theorem Valid.paren_assign_spec [Zero T] {m : Matrix T} (hv : m.Valid) {i j : Nat}
    (hi : i < m.rows_) (hj : j < m.cols_) (v : T) :
    ∃ m', m.operator_paren_assign i j v = .ok m' ∧ m'.Valid ∧ m'.rows_ = m.rows_ ∧
      m'.cols_ = m.cols_ ∧ m'.entry i j = v ∧
      ∀ i' j', i' < m.rows_ → j' < m.cols_ → (i' ≠ i ∨ j' ≠ j) →
        m'.entry i' j' = m.entry i' j' := by
  have hlt := hv.offset_lt_length hi hj
  refine ⟨{ m with data_ := m.data_.set (i * m.cols_ + j) v }, ?_, ?_, rfl, rfl, ?_, ?_⟩
  · simp [operator_paren_assign, hv.offset_eq hi hj, indexAssign_of_lt _ _ _ hlt]
  · obtain ⟨h1, h2, h3, h4⟩ := hv
    exact ⟨h1, h2, h3, by simpa using h4⟩
  · have h := hv.offset_eq hi hj
    simp only [offset] at h
    simp [entry, operator_paren, index, offset, h, hlt]
  · intro i' j' hi' hj' hne
    have h := hv.offset_eq hi' hj'
    have hlt' := hv.offset_lt_length hi' hj'
    simp only [offset] at h
    have hneq : i * m.cols_ + j ≠ i' * m.cols_ + j' := by
      intro heq
      have := offset_inj hj hj' heq
      omega
    simp [entry, operator_paren, index, offset, h, List.getElem?_set_ne hneq]

theorem Valid.new [Zero T] {rows cols : Nat} (hr : rows < SIZE_MOD) (hc : cols < SIZE_MOD)
    (h : rows * cols < SIZE_MOD) : (Matrix.new rows cols : Matrix T).Valid := by
  refine ⟨hr, hc, h, ?_⟩
  simp [Matrix.new, Nat.mod_eq_of_lt h]

theorem new_entry [Zero T] (rows cols i j : Nat) :
    (Matrix.new rows cols : Matrix T).entry i j = 0 := by
  simp only [entry, operator_paren, index, Matrix.new, List.getElem?_replicate]
  split_ifs <;> rfl

end Matrix

/-! ## Nested loops that write one cell per iteration -/

/-- Two nested counted loops whose body at `(i, j)` writes the cell `(p i j, q i j)` with
`f i j` and leaves every other cell alone: afterwards every visited cell holds its value. -/
theorem fill_loops [Zero T] (r c : Nat) (p q : Nat → Nat → Nat) (f : Nat → Nat → T)
    (body : Nat → Nat → Matrix T → Except Abort (Matrix T)) (R0 : Matrix T) (hR0 : R0.Valid)
    (hinj : ∀ i j i' j', i < r → j < c → i' < r → j' < c → p i j = p i' j' →
      q i j = q i' j' → i = i' ∧ j = j')
    (hin : ∀ i j, i < r → j < c → p i j < R0.rows_ ∧ q i j < R0.cols_)
    (hbody : ∀ i j (R : Matrix T), i < r → j < c → R.Valid → R.rows_ = R0.rows_ →
      R.cols_ = R0.cols_ →
      ∃ R', body i j R = .ok R' ∧ R'.Valid ∧ R'.rows_ = R0.rows_ ∧ R'.cols_ = R0.cols_ ∧
        R'.entry (p i j) (q i j) = f i j ∧
        ∀ i' j', i' < R0.rows_ → j' < R0.cols_ → (i' ≠ p i j ∨ j' ≠ q i j) →
          R'.entry i' j' = R.entry i' j') :
    ∃ R', forLoop 0 r (fun i R => forLoop 0 c (fun j R => body i j R) R) R0 = .ok R' ∧
      R'.Valid ∧ R'.rows_ = R0.rows_ ∧ R'.cols_ = R0.cols_ ∧
      ∀ i j, i < r → j < c → R'.entry (p i j) (q i j) = f i j := by
  obtain ⟨R', hrun, hv, hr, hc, hall⟩ := forLoop_inv
    (fun i (R : Matrix T) => R.Valid ∧ R.rows_ = R0.rows_ ∧ R.cols_ = R0.cols_ ∧
      ∀ i' j', i' < i → i' < r → j' < c → R.entry (p i' j') (q i' j') = f i' j')
    (fun i R => forLoop 0 c (fun j R => body i j R) R)
    r 0 R0 ⟨hR0, rfl, rfl, fun i' _ h => absurd h (Nat.not_lt_zero i')⟩
    (by
      intro i R _ hi ⟨hv, hr, hc, hdone⟩
      have hi : i < r := by omega
      obtain ⟨R', hrun, hv', hr', hc', hall⟩ := forLoop_inv
        (fun j (R : Matrix T) => R.Valid ∧ R.rows_ = R0.rows_ ∧ R.cols_ = R0.cols_ ∧
          ∀ i' j', i' < r → j' < c → (i' < i ∨ (i' = i ∧ j' < j)) →
            R.entry (p i' j') (q i' j') = f i' j')
        (fun j R => body i j R)
        c 0 R ⟨hv, hr, hc, fun i' j' hi' hj' h => hdone i' j' (by omega) hi' hj'⟩
        (by
          intro j S _ hj ⟨hvS, hrS, hcS, hS⟩
          have hj : j < c := by omega
          obtain ⟨S', hrun, hvS', hrS', hcS', hcell, hframe⟩ := hbody i j S hi hj hvS hrS hcS
          refine ⟨S', hrun, hvS', hrS', hcS', ?_⟩
          intro i' j' hi' hj' hlex
          by_cases hsame : i' = i ∧ j' = j
          · rw [hsame.1, hsame.2]
            exact hcell
          · have hne : p i' j' ≠ p i j ∨ q i' j' ≠ q i j := by
              by_contra hcon
              push_neg at hcon
              exact hsame (hinj i' j' i j hi' hj' hi hj hcon.1 hcon.2)
            rw [hframe _ _ (hin i' j' hi' hj').1 (hin i' j' hi' hj').2 hne]
            exact hS i' j' hi' hj' (by omega))
      refine ⟨R', hrun, hv', hr', hc', ?_⟩
      intro i' j' hlt hi' hj'
      exact hall i' j' hi' hj' (by omega))
  exact ⟨R', hrun, hv, hr, hc, fun i j hi hj => hall i j (by omega) hi hj⟩

/-! ## Transpose -/

/-- The loops of `transpose` complete on a valid matrix and fill the transposed cells. -/
theorem transpose_spec [Zero T] {m : Matrix T} (hv : m.Valid) :
    ∃ R, transpose m = .ok R ∧ R.Valid ∧ R.rows_ = m.cols_ ∧ R.cols_ = m.rows_ ∧
      ∀ i j, i < m.rows_ → j < m.cols_ → R.entry j i = m.entry i j := by
  have hsz : m.cols_ * m.rows_ < SIZE_MOD := by
    rw [Nat.mul_comm]
    exact hv.2.2.1
  have hnew : (Matrix.new m.cols_ m.rows_ : Matrix T).Valid := Matrix.Valid.new hv.2.1 hv.1 hsz
  exact fill_loops m.rows_ m.cols_ (fun _ j => j) (fun i _ => i) (fun i j => m.entry i j)
    (fun i j result => do
      let v ← m.operator_paren i j
      result.operator_paren_assign j i v)
    (Matrix.new m.cols_ m.rows_) hnew
    (fun i j i' j' _ _ _ _ hp hq => ⟨hq, hp⟩)
    (fun i j hi hj => ⟨hj, hi⟩)
    (by
      intro i j R hi hj hR hr hc
      have hj' : j < R.rows_ := by rw [hr]; exact hj
      have hi' : i < R.cols_ := by rw [hc]; exact hi
      obtain ⟨R', hrun, hv', hr', hc', hcell, hframe⟩ := hR.paren_assign_spec hj' hi' (m.entry i j)
      refine ⟨R', ?_, hv', hr'.trans hr, hc'.trans hc, hcell, ?_⟩
      · simp only [hv.paren_eq hi hj, bind, Except.bind]
        exact hrun
      · intro i' j' hi'' hj'' hne
        exact hframe i' j' (by rw [hr]; exact hi'') (by rw [hc]; exact hj'') hne)

/-! ## What holds of every call, valid operands or not -/

/-- A property kept by every completed iteration holds when the loop completes. -/
theorem forLoop_preserves {σ : Type} (P : σ → Prop) (body : Nat → σ → Except Abort σ)
    (hbody : ∀ i s s', P s → body i s = .ok s' → P s') :
    ∀ (n lo : Nat) (s s' : σ), P s → forLoop lo n body s = .ok s' → P s' := by
  intro n
  induction n with
  | zero =>
    intro lo s s' hs h
    cases h
    exact hs
  | succ n ih =>
    intro lo s s' hs h
    rw [forLoop_succ] at h
    cases hb : body lo s with
    | error e => rw [hb] at h; cases h
    | ok t =>
      rw [hb] at h
      exact ih (lo + 1) t s' (hbody lo s t hs hb) h

/-- A loop whose body never throws never throws. -/
theorem forLoop_not_thrown {σ : Type} (body : Nat → σ → Except Abort σ)
    (hbody : ∀ i s e, body i s ≠ .error (.thrown e)) :
    ∀ (n lo : Nat) (s : σ) (e : Exception), forLoop lo n body s ≠ .error (.thrown e) := by
  intro n
  induction n with
  | zero =>
    intro lo s e h
    cases h
  | succ n ih =>
    intro lo s e h
    rw [forLoop_succ] at h
    cases hb : body lo s with
    | error e' =>
      rw [hb] at h
      cases h
      exact hbody lo s e hb
    | ok t =>
      rw [hb] at h
      exact ih (lo + 1) t e h

theorem index_not_thrown (data : List T) (k : Nat) (e : Exception) :
    index data k ≠ .error (.thrown e) := by
  unfold index
  split <;> simp

theorem indexAssign_not_thrown (data : List T) (k : Nat) (v : T) (e : Exception) :
    indexAssign data k v ≠ .error (.thrown e) := by
  unfold indexAssign
  split <;> simp

namespace Matrix

theorem operator_paren_not_thrown (m : Matrix T) (i j : Nat) (e : Exception) :
    m.operator_paren i j ≠ .error (.thrown e) :=
  index_not_thrown _ _ e

theorem operator_paren_assign_not_thrown (m : Matrix T) (i j : Nat) (v : T) (e : Exception) :
    m.operator_paren_assign i j v ≠ .error (.thrown e) := by
  unfold operator_paren_assign
  have := indexAssign_not_thrown m.data_ (m.offset i j) v e
  split
  · simp
  · next e' h =>
    intro h'
    cases h'
    exact this h

theorem operator_paren_assign_shape (m m' : Matrix T) (i j : Nat) (v : T)
    (h : m.operator_paren_assign i j v = .ok m') : m'.rows_ = m.rows_ ∧ m'.cols_ = m.cols_ := by
  unfold operator_paren_assign at h
  split at h
  · cases h
    exact ⟨rfl, rfl⟩
  · cases h

end Matrix

/-- The bind of two computations that never throw never throws. -/
theorem bind_not_thrown {α β : Type} (x : Except Abort α) (f : α → Except Abort β)
    (hx : ∀ e, x ≠ .error (.thrown e)) (hf : ∀ a e, f a ≠ .error (.thrown e)) (e : Exception) :
    (x >>= f) ≠ .error (.thrown e) := by
  cases x with
  | error e' =>
    intro h
    cases h
    exact hx e rfl
  | ok a => exact hf a e

/-- When a bind returns, both parts returned. -/
theorem bind_eq_ok {α β : Type} (x : Except Abort α) (f : α → Except Abort β) (b : β)
    (h : (x >>= f) = .ok b) : ∃ a, x = .ok a ∧ f a = .ok b := by
  cases x with
  | error e => cases h
  | ok a => exact ⟨a, rfl, h⟩

/-- A read or a write at an offset outside the buffer does not return. -/
theorem Matrix.access_outside (m : Matrix T) (row col : Nat)
    (h : m.data_.length ≤ m.offset row col) :
    m.operator_paren row col = .error .undefined ∧
      ∀ v, m.operator_paren_assign row col v = .error .undefined := by
  refine ⟨index_of_le _ _ h, fun v => ?_⟩
  unfold Matrix.operator_paren_assign
  rw [indexAssign_of_le _ _ _ h]

/-! ## Extensionality, sums, moves -/

/-- Two valid matrices of the same shape with the same elements are the same matrix. -/
theorem Matrix.Valid.ext [Zero T] {a b : Matrix T} (ha : a.Valid) (hb : b.Valid)
    (hr : a.rows_ = b.rows_) (hc : a.cols_ = b.cols_)
    (h : ∀ i j, i < a.rows_ → j < a.cols_ → a.entry i j = b.entry i j) : a = b := by
  have hlen : a.data_.length = b.data_.length := by
    rw [ha.2.2.2, hb.2.2.2, hr, hc]
  have hdata : a.data_ = b.data_ := by
    apply List.ext_getElem?
    intro k
    by_cases hk : k < a.data_.length
    · have hk' : k < a.rows_ * a.cols_ := by rw [← ha.2.2.2]; exact hk
      have hcpos : 0 < a.cols_ := by
        rcases Nat.eq_zero_or_pos a.cols_ with h0 | h0
        · rw [h0] at hk'
          simp at hk'
        · exact h0
      have hdiv : k / a.cols_ < a.rows_ := (Nat.div_lt_iff_lt_mul hcpos).mpr hk'
      have hmod : k % a.cols_ < a.cols_ := Nat.mod_lt _ hcpos
      have hsplit : k / a.cols_ * a.cols_ + k % a.cols_ = k := Nat.div_add_mod' _ _
      have h1 := ha.getElem?_eq hdiv hmod
      have h2 := hb.getElem?_eq (hr ▸ hdiv) (hc ▸ hmod)
      rw [← hc, hsplit] at h2
      rw [hsplit] at h1
      rw [h1, h2, h _ _ hdiv hmod]
    · rw [List.getElem?_eq_none (by omega), List.getElem?_eq_none (by omega)]
  cases a
  cases b
  simp only at hr hc hdata
  subst hr hc hdata
  rfl

/-- Sums accumulated over the same range from terms that agree are equal. -/
theorem foldl_range_congr (f g : Nat → Int) :
    ∀ n, (∀ k, k < n → f k = g k) →
      (List.range n).foldl (fun acc k => acc + f k) 0
        = (List.range n).foldl (fun acc k => acc + g k) 0 := by
  intro n
  induction n with
  | zero => intro _; rfl
  | succ n ih =>
    intro h
    simp only [List.range_succ, List.foldl_append, List.foldl_cons, List.foldl_nil]
    rw [ih (fun k hk => h k (by omega)), h n (by omega)]

/-- A sum whose only non-zero term is the one of index `i`. -/
theorem foldl_range_single (f : Nat → Int) (i : Nat) :
    ∀ n, (∀ k, k < n → k ≠ i → f k = 0) →
      (List.range n).foldl (fun acc k => acc + f k) 0 = if i < n then f i else 0 := by
  intro n
  induction n with
  | zero => intro _; rfl
  | succ n ih =>
    intro h
    simp only [List.range_succ, List.foldl_append, List.foldl_cons, List.foldl_nil]
    rw [ih (fun k hk => h k (by omega))]
    by_cases hin : i < n
    · rw [if_pos hin, if_pos (by omega), h n (by omega) (by omega)]
      simp
    · rw [if_neg hin]
      by_cases hi : i = n
      · subst hi
        simp
      · rw [if_neg (by omega), h n (by omega) (fun h' => hi h'.symm)]
        simp

theorem Matrix.entry_of_paren [Zero T] (m : Matrix T) (i j : Nat) (v : T)
    (h : m.operator_paren i j = .ok v) : m.entry i j = v := by
  simp [Matrix.entry, h]

/-- A move assignment between two different objects hands the value of the source to the
destination, resets the source, and leaves every other object alone. -/
theorem Matrix.operator_assign_move_spec (mem : Memory T) (d s : Nat) (h : d ≠ s) :
    Matrix.operator_assign_move mem d s d = mem s ∧
      Matrix.operator_assign_move mem d s s = { rows_ := 0, cols_ := 0, data_ := [] } ∧
      ∀ q, q ≠ d → q ≠ s → Matrix.operator_assign_move mem d s q = mem q := by
  have h' : s ≠ d := fun e => h e.symm
  refine ⟨?_, ?_, ?_⟩
  · simp [Matrix.operator_assign_move, Memory.store, h, h']
  · simp [Matrix.operator_assign_move, Memory.store, h, h']
  · intro q hqd hqs
    simp [Matrix.operator_assign_move, Memory.store, h, hqd, hqs]

/-- When a loop completes, every one of its iterations completed, from a state in which the
invariant held. -/
theorem forLoop_ok_iter {σ : Type} (P : σ → Prop) (body : Nat → σ → Except Abort σ)
    (hbody : ∀ i s s', P s → body i s = .ok s' → P s') :
    ∀ (n lo : Nat) (s s' : σ), P s → forLoop lo n body s = .ok s' →
      ∀ i, lo ≤ i → i < lo + n → ∃ t t', P t ∧ body i t = .ok t' := by
  intro n
  induction n with
  | zero =>
    intro lo s s' _ _ i h1 h2
    omega
  | succ n ih =>
    intro lo s s' hs h i h1 h2
    rw [forLoop_succ] at h
    cases hb : body lo s with
    | error e => rw [hb] at h; cases h
    | ok t =>
      rw [hb] at h
      by_cases hi : i = lo
      · subst hi
        exact ⟨s, t, hs, hb⟩
      · exact ih (lo + 1) t s' (hbody lo s t hs hb) h i (by omega) (by omega)

theorem Matrix.operator_paren_assign_length (m m' : Matrix T) (i j : Nat) (v : T)
    (h : m.operator_paren_assign i j v = .ok m') :
    m'.cols_ = m.cols_ ∧ m'.data_.length = m.data_.length := by
  unfold Matrix.operator_paren_assign indexAssign at h
  split at h
  · next d hd =>
    split at hd
    · cases hd
      cases h
      exact ⟨rfl, by simp⟩
    · cases hd
  · cases h

/-- The column of `2 ^ 32` zeros and the row of `2 ^ 32` zeros are valid matrices. -/
theorem tall_wide_valid : tall.Valid ∧ wide.Valid := by
  have h32 : (2 : Nat) ^ 32 < SIZE_MOD := by norm_num [SIZE_MOD]
  have h1 : (1 : Nat) < SIZE_MOD := by norm_num [SIZE_MOD]
  exact ⟨Matrix.Valid.new h32 h1 (by norm_num [SIZE_MOD]),
    Matrix.Valid.new h1 h32 (by norm_num [SIZE_MOD])⟩

/-! ## The arithmetic of `int` -/

theorem int.eq_of_val_eq {x y : int} (h : x.val = y.val) : x = y := by
  cases x
  cases y
  simp only at h
  subst h
  rfl

theorem int.ofInt_val {x : Int} (h : InRange x) : (int.ofInt x).val = x := by
  unfold InRange INT_MAX INT_MIN at h
  show (x - INT_MIN) % 4294967296 + INT_MIN = x
  unfold INT_MIN
  rw [Int.emod_eq_of_lt (by omega) (by omega)]
  omega

theorem int.ofInt_self (x : int) : int.ofInt x.val = x :=
  int.eq_of_val_eq (int.ofInt_val x.inRange)

theorem int.zero_val : (0 : int).val = 0 := rfl

theorem int.add_eq (x y : int) (h : InRange (x.val + y.val)) :
    Arithmetic.add x y = .ok (int.ofInt (x.val + y.val)) := by
  show int.add x y = _
  unfold int.add
  rw [dif_pos h]
  congr 1
  exact int.eq_of_val_eq (int.ofInt_val h).symm

theorem int.sub_eq (x y : int) (h : InRange (x.val - y.val)) :
    Arithmetic.sub x y = .ok (int.ofInt (x.val - y.val)) := by
  show int.sub x y = _
  unfold int.sub
  rw [dif_pos h]
  congr 1
  exact int.eq_of_val_eq (int.ofInt_val h).symm

theorem int.mul_eq (x y : int) (h : InRange (x.val * y.val)) :
    Arithmetic.mul x y = .ok (int.ofInt (x.val * y.val)) := by
  show int.mul x y = _
  unfold int.mul
  rw [dif_pos h]
  congr 1
  exact int.eq_of_val_eq (int.ofInt_val h).symm

theorem int.add_ok (x y z : int) (h : Arithmetic.add x y = .ok z) :
    InRange (x.val + y.val) ∧ z.val = x.val + y.val := by
  have h' : int.add x y = .ok z := h
  unfold int.add at h'
  split at h'
  · next hr =>
    cases h'
    exact ⟨hr, rfl⟩
  · cases h'

theorem int.sub_ok (x y z : int) (h : Arithmetic.sub x y = .ok z) :
    InRange (x.val - y.val) ∧ z.val = x.val - y.val := by
  have h' : int.sub x y = .ok z := h
  unfold int.sub at h'
  split at h'
  · next hr =>
    cases h'
    exact ⟨hr, rfl⟩
  · cases h'

theorem int.mul_ok (x y z : int) (h : Arithmetic.mul x y = .ok z) :
    InRange (x.val * y.val) ∧ z.val = x.val * y.val := by
  have h' : int.mul x y = .ok z := h
  unfold int.mul at h'
  split at h'
  · next hr =>
    cases h'
    exact ⟨hr, rfl⟩
  · cases h'

theorem int.add_not_thrown (x y : int) (e : Exception) :
    Arithmetic.add x y ≠ .error (.thrown e) := by
  show int.add x y ≠ _
  unfold int.add
  split <;> simp

theorem int.sub_not_thrown (x y : int) (e : Exception) :
    Arithmetic.sub x y ≠ .error (.thrown e) := by
  show int.sub x y ≠ _
  unfold int.sub
  split <;> simp

theorem int.mul_not_thrown (x y : int) (e : Exception) :
    Arithmetic.mul x y ≠ .error (.thrown e) := by
  show int.mul x y ≠ _
  unfold int.mul
  split <;> simp

/-- An overflowing sum is undefined behaviour. -/
theorem int.add_overflow (x y : int) (h : ¬ InRange (x.val + y.val)) :
    Arithmetic.add x y = .error .undefined := by
  show int.add x y = _
  simp [int.add, h]

/-! ## Addition and subtraction -/

/-- A property of all pairs of corresponding elements of two lists, by position. -/
theorem forall_zip_iff (P : T → T → Prop) (a b : List T) :
    (∀ p ∈ a.zip b, P p.1 p.2) ↔
      ∀ (k : Nat) (x y : T), a[k]? = some x → b[k]? = some y → P x y := by
  constructor
  · intro h k x y hx hy
    exact h (x, y) (List.mem_iff_getElem?.mpr ⟨k, List.getElem?_zip_eq_some.mpr ⟨hx, hy⟩⟩)
  · intro h p hp
    obtain ⟨k, hk⟩ := List.mem_iff_getElem?.mp hp
    have := List.getElem?_zip_eq_some.mp hk
    exact h k p.1 p.2 this.1 this.2

/-- The element-wise loop of `operator+` and `operator-`, when the element operation `f`
returns `g x y` on every pair of corresponding elements, computes `List.zipWith g`. -/
theorem elementwise_loop (f : T → T → Except Abort T) (g : T → T → T) (a b : List T) (n : Nat)
    (ha : a.length = n) (hb : b.length = n)
    (hfg : ∀ (k : Nat) (x y : T), a[k]? = some x → b[k]? = some y → f x y = .ok (g x y))
    (R0 : Matrix T) (hR : R0.data_.length = n) :
    forLoop 0 n
      (fun i (result : Matrix T) => do
        let x ← index a i
        let y ← index b i
        let s ← f x y
        let d ← indexAssign result.data_ i s
        pure { result with data_ := d })
      R0 = .ok { R0 with data_ := List.zipWith g a b } := by
  obtain ⟨R, hR1, h1, h2, h3, h4⟩ := forLoop_inv
    (fun i (R : Matrix T) => R.rows_ = R0.rows_ ∧ R.cols_ = R0.cols_ ∧ R.data_.length = n ∧
      ∀ k, k < i → R.data_[k]? = (List.zipWith g a b)[k]?)
    (fun i (result : Matrix T) => do
        let x ← index a i
        let y ← index b i
        let s ← f x y
        let d ← indexAssign result.data_ i s
        pure { result with data_ := d })
    n 0 R0 ⟨rfl, rfl, hR, fun k hk => absurd hk (Nat.not_lt_zero k)⟩
    (by
      intro i R _ hi ⟨h1, h2, h3, h4⟩
      have hia : i < a.length := by omega
      have hib : i < b.length := by omega
      have hiR : i < R.data_.length := by omega
      have hf := hfg i _ _ (List.getElem?_eq_getElem hia) (List.getElem?_eq_getElem hib)
      refine ⟨{ R with data_ := R.data_.set i (g (a.get ⟨i, hia⟩) (b.get ⟨i, hib⟩)) }, ?_,
        h1, h2, by simpa using h3, ?_⟩
      · simp only [index_of_lt _ _ hia, index_of_lt _ _ hib, bind, Except.bind]
        simp only [List.get_eq_getElem, hf, indexAssign_of_lt _ _ _ hiR, pure, Except.pure]
      · intro k hk
        by_cases hki : k = i
        · subst hki
          simp [List.getElem?_zipWith, List.getElem?_eq_getElem hia,
            List.getElem?_eq_getElem hib, hiR]
        · have : i ≠ k := fun h => hki h.symm
          simp only [List.getElem?_set_ne this]
          exact h4 k (by omega))
  rw [hR1]
  congr 1
  cases R with
  | mk r c d =>
    simp only at h1 h2 h3 h4
    subst h1 h2
    congr 1
    apply List.ext_getElem?
    intro k
    by_cases hk : k < n
    · exact h4 k (by omega)
    · rw [List.getElem?_eq_none (by omega), List.getElem?_eq_none (by simp; omega)]

/-- When the element-wise loop completes, the element operation returned on every pair of
corresponding elements. -/
theorem elementwise_ok (f : T → T → Except Abort T) (a b : List T) (n : Nat)
    (R0 R : Matrix T)
    (h : forLoop 0 n
      (fun i (result : Matrix T) => do
        let x ← index a i
        let y ← index b i
        let s ← f x y
        let d ← indexAssign result.data_ i s
        pure { result with data_ := d })
      R0 = .ok R) :
    ∀ k, k < n → ∃ x y s, a[k]? = some x ∧ b[k]? = some y ∧ f x y = .ok s := by
  intro k hk
  obtain ⟨t, t', _, hrun⟩ := forLoop_ok_iter (fun _ => True) _ (fun _ _ _ _ _ => trivial)
    n 0 R0 R trivial h k (Nat.zero_le _) (by omega)
  obtain ⟨x, hx, hrun⟩ := bind_eq_ok _ _ _ hrun
  obtain ⟨y, hy, hrun⟩ := bind_eq_ok _ _ _ hrun
  obtain ⟨s, hs, _⟩ := bind_eq_ok _ _ _ hrun
  exact ⟨x, y, s, (index_eq_ok_iff _ _ _).mp hx, (index_eq_ok_iff _ _ _).mp hy, hs⟩

theorem elementwise_not_thrown (f : T → T → Except Abort T)
    (hf : ∀ x y e, f x y ≠ .error (.thrown e)) (a b : List T) (n : Nat) (R0 : Matrix T)
    (e : Exception) :
    forLoop 0 n
      (fun i (result : Matrix T) => do
        let x ← index a i
        let y ← index b i
        let s ← f x y
        let d ← indexAssign result.data_ i s
        pure { result with data_ := d })
      R0 ≠ .error (.thrown e) := by
  apply forLoop_not_thrown
  intro i R e
  apply bind_not_thrown _ _ (index_not_thrown _ _)
  intro x
  apply bind_not_thrown _ _ (index_not_thrown _ _)
  intro y
  apply bind_not_thrown _ _ (hf x y)
  intro s
  apply bind_not_thrown _ _ (indexAssign_not_thrown _ _ _)
  intro d e h
  cases h

theorem elementwise_shape (f : T → T → Except Abort T) (a b : List T) (n : Nat)
    (R0 R : Matrix T)
    (h : forLoop 0 n
      (fun i (result : Matrix T) => do
        let x ← index a i
        let y ← index b i
        let s ← f x y
        let d ← indexAssign result.data_ i s
        pure { result with data_ := d })
      R0 = .ok R) :
    R.rows_ = R0.rows_ ∧ R.cols_ = R0.cols_ ∧ R.data_.length = R0.data_.length := by
  refine forLoop_preserves
    (fun (S : Matrix T) =>
      S.rows_ = R0.rows_ ∧ S.cols_ = R0.cols_ ∧ S.data_.length = R0.data_.length) _ ?_
    n 0 R0 R ⟨rfl, rfl, rfl⟩ h
  intro i S S' hS hrun
  obtain ⟨x, _, hrun⟩ := bind_eq_ok _ _ _ hrun
  obtain ⟨y, _, hrun⟩ := bind_eq_ok _ _ _ hrun
  obtain ⟨s, _, hrun⟩ := bind_eq_ok _ _ _ hrun
  obtain ⟨d, hd, hrun⟩ := bind_eq_ok _ _ _ hrun
  cases hrun
  unfold indexAssign at hd
  split at hd
  · cases hd
    exact ⟨hS.1, hS.2.1, by simpa using hS.2.2⟩
  · cases hd

theorem Matrix.Valid.allocated {m : Matrix T} (hv : m.Valid) : m.Allocated := by
  unfold Matrix.Allocated
  rw [Nat.mod_eq_of_lt hv.2.2.1]
  exact hv.2.2.2

namespace Matrix

theorem plusInRange_iff (a b : Matrix int) :
    a.PlusInRange b ↔
      ∀ (k : Nat) (x y : int), a.data_[k]? = some x → b.data_[k]? = some y →
        InRange (x.val + y.val) :=
  forall_zip_iff (fun (x y : int) => InRange (x.val + y.val)) a.data_ b.data_

theorem minusInRange_iff (a b : Matrix int) :
    a.MinusInRange b ↔
      ∀ (k : Nat) (x y : int), a.data_[k]? = some x → b.data_[k]? = some y →
        InRange (x.val - y.val) :=
  forall_zip_iff (fun (x y : int) => InRange (x.val - y.val)) a.data_ b.data_

/-- On operands with the buffers of their shape and no overflowing element sum,
`operator+` returns the element-wise sums. -/
theorem Allocated.operator_plus_eq {a b : Matrix int} (ha : a.Allocated) (hb : b.Allocated)
    (hr : a.rows_ = b.rows_) (hc : a.cols_ = b.cols_) (hrange : a.PlusInRange b) :
    a.operator_plus b =
      .ok { rows_ := a.rows_, cols_ := a.cols_,
            data_ := List.zipWith (fun x y => int.ofInt (x.val + y.val)) a.data_ b.data_ } := by
  unfold operator_plus
  rw [if_neg (by simp [hr, hc])]
  rw [elementwise_loop Arithmetic.add (fun x y => int.ofInt (x.val + y.val)) a.data_ b.data_
    ((a.rows_ * a.cols_) % SIZE_MOD) ha (by rw [hb, hr, hc])
    (fun k x y hx hy =>
      int.add_eq x y ((plusInRange_iff a b).mp hrange k x y hx hy))
    _ (by simp [Matrix.new])]
  rfl

/-- On operands with the buffers of their shape and no overflowing element difference,
`operator-` returns the element-wise differences. -/
theorem Allocated.operator_minus_eq {a b : Matrix int} (ha : a.Allocated) (hb : b.Allocated)
    (hr : a.rows_ = b.rows_) (hc : a.cols_ = b.cols_) (hrange : a.MinusInRange b) :
    a.operator_minus b =
      .ok { rows_ := a.rows_, cols_ := a.cols_,
            data_ := List.zipWith (fun x y => int.ofInt (x.val - y.val)) a.data_ b.data_ } := by
  unfold operator_minus
  rw [if_neg (by simp [hr, hc])]
  rw [elementwise_loop Arithmetic.sub (fun x y => int.ofInt (x.val - y.val)) a.data_ b.data_
    ((a.rows_ * a.cols_) % SIZE_MOD) ha (by rw [hb, hr, hc])
    (fun k x y hx hy =>
      int.sub_eq x y ((minusInRange_iff a b).mp hrange k x y hx hy))
    _ (by simp [Matrix.new])]
  rfl

theorem operator_plus_thrown_iff (a b : Matrix int) (e : Exception) :
    a.operator_plus b = .error (.thrown e) ↔
      (a.rows_ ≠ b.rows_ ∨ a.cols_ ≠ b.cols_) ∧
        e = ⟨.invalid_argument, "Matrix dimensions must agree for addition."⟩ := by
  unfold operator_plus
  split
  · next h =>
    constructor
    · intro h'
      cases h'
      exact ⟨h, rfl⟩
    · rintro ⟨_, rfl⟩
      rfl
  · next h =>
    constructor
    · intro h'
      exact absurd h' (elementwise_not_thrown _ int.add_not_thrown _ _ _ _ e)
    · rintro ⟨h', _⟩
      exact absurd h' h

theorem operator_minus_thrown_iff (a b : Matrix int) (e : Exception) :
    a.operator_minus b = .error (.thrown e) ↔
      (a.rows_ ≠ b.rows_ ∨ a.cols_ ≠ b.cols_) ∧
        e = ⟨.invalid_argument, "Matrix dimensions must agree for subtraction."⟩ := by
  unfold operator_minus
  split
  · next h =>
    constructor
    · intro h'
      cases h'
      exact ⟨h, rfl⟩
    · rintro ⟨_, rfl⟩
      rfl
  · next h =>
    constructor
    · intro h'
      exact absurd h' (elementwise_not_thrown _ int.sub_not_thrown _ _ _ _ e)
    · rintro ⟨h', _⟩
      exact absurd h' h

theorem operator_plus_shape [Arithmetic T] (a b R : Matrix T)
    (h : a.operator_plus b = .ok R) :
    a.rows_ = b.rows_ ∧ a.cols_ = b.cols_ ∧ R.rows_ = a.rows_ ∧ R.cols_ = a.cols_ ∧
      R.Allocated := by
  unfold operator_plus at h
  split at h
  · cases h
  · next hne =>
    have := elementwise_shape _ _ _ _ _ _ h
    simp only [not_or, not_not] at hne
    refine ⟨hne.1, hne.2, this.1, this.2.1, ?_⟩
    unfold Allocated
    rw [this.2.2, this.1, this.2.1]
    simp [Matrix.new]

theorem operator_minus_shape [Arithmetic T] (a b R : Matrix T)
    (h : a.operator_minus b = .ok R) :
    a.rows_ = b.rows_ ∧ a.cols_ = b.cols_ ∧ R.rows_ = a.rows_ ∧ R.cols_ = a.cols_ ∧
      R.Allocated := by
  unfold operator_minus at h
  split at h
  · cases h
  · next hne =>
    have := elementwise_shape _ _ _ _ _ _ h
    simp only [not_or, not_not] at hne
    refine ⟨hne.1, hne.2, this.1, this.2.1, ?_⟩
    unfold Allocated
    rw [this.2.2, this.1, this.2.1]
    simp [Matrix.new]

/-- When `operator+` returns, no element sum overflowed. -/
theorem operator_plus_ok_range {a b R : Matrix int} (ha : a.Allocated)
    (h : a.operator_plus b = .ok R) : a.PlusInRange b := by
  unfold operator_plus at h
  split at h
  · cases h
  · apply (plusInRange_iff a b).mpr
    intro k x y hx hy
    have hk : k < a.data_.length := by
      by_contra hcon
      rw [List.getElem?_eq_none (by omega)] at hx
      cases hx
    obtain ⟨x', y', s, hx', hy', hs⟩ := elementwise_ok _ _ _ _ _ _ h k (by rw [← ha]; exact hk)
    rw [hx] at hx'
    rw [hy] at hy'
    cases hx'
    cases hy'
    exact (int.add_ok x y s hs).1

/-- When `operator-` returns, no element difference overflowed. -/
theorem operator_minus_ok_range {a b R : Matrix int} (ha : a.Allocated)
    (h : a.operator_minus b = .ok R) : a.MinusInRange b := by
  unfold operator_minus at h
  split at h
  · cases h
  · apply (minusInRange_iff a b).mpr
    intro k x y hx hy
    have hk : k < a.data_.length := by
      by_contra hcon
      rw [List.getElem?_eq_none (by omega)] at hx
      cases hx
    obtain ⟨x', y', s, hx', hy', hs⟩ := elementwise_ok _ _ _ _ _ _ h k (by rw [← ha]; exact hk)
    rw [hx] at hx'
    rw [hy] at hy'
    cases hx'
    cases hy'
    exact (int.sub_ok x y s hs).1

/-- Exactly when `operator+` returns, on operands with the buffers of their shape. -/
theorem Allocated.operator_plus_ok_iff {a b : Matrix int} (ha : a.Allocated)
    (hb : b.Allocated) :
    (∃ R, a.operator_plus b = .ok R) ↔
      (a.rows_ = b.rows_ ∧ a.cols_ = b.cols_ ∧ a.PlusInRange b) := by
  constructor
  · rintro ⟨R, hR⟩
    have := operator_plus_shape a b R hR
    exact ⟨this.1, this.2.1, operator_plus_ok_range ha hR⟩
  · rintro ⟨hr, hc, hrange⟩
    exact ⟨_, ha.operator_plus_eq hb hr hc hrange⟩

/-- Exactly when `operator-` returns, on operands with the buffers of their shape. -/
theorem Allocated.operator_minus_ok_iff {a b : Matrix int} (ha : a.Allocated)
    (hb : b.Allocated) :
    (∃ R, a.operator_minus b = .ok R) ↔
      (a.rows_ = b.rows_ ∧ a.cols_ = b.cols_ ∧ a.MinusInRange b) := by
  constructor
  · rintro ⟨R, hR⟩
    have := operator_minus_shape a b R hR
    exact ⟨this.1, this.2.1, operator_minus_ok_range ha hR⟩
  · rintro ⟨hr, hc, hrange⟩
    exact ⟨_, ha.operator_minus_eq hb hr hc hrange⟩

end Matrix

/-- The matrix of element-wise results of valid operands is valid. -/
theorem Matrix.Valid.zipWith {a b : Matrix T} (ha : a.Valid) (hb : b.Valid)
    (hr : a.rows_ = b.rows_) (hc : a.cols_ = b.cols_) (f : T → T → T) :
    (Matrix.mk a.rows_ a.cols_ (List.zipWith f a.data_ b.data_)).Valid := by
  obtain ⟨h1, h2, h3, h4⟩ := ha
  refine ⟨h1, h2, h3, ?_⟩
  simp [h4, hb.2.2.2, hr, hc]

/-- An element read from the matrix of element-wise results of valid operands. -/
theorem Matrix.Valid.zipWith_paren [Zero T] {a b : Matrix T} (ha : a.Valid) (hb : b.Valid)
    (hr : a.rows_ = b.rows_) (hc : a.cols_ = b.cols_) (f : T → T → T) {i j : Nat}
    (hi : i < a.rows_) (hj : j < a.cols_) :
    (Matrix.mk a.rows_ a.cols_ (List.zipWith f a.data_ b.data_)).operator_paren i j
      = .ok (f (a.entry i j) (b.entry i j)) := by
  have h1 := ha.getElem?_eq hi hj
  have h2 := hb.getElem?_eq (hr ▸ hi) (hc ▸ hj)
  rw [← hc] at h2
  have hoff := ha.offset_eq hi hj
  simp only [Matrix.offset] at hoff
  simp [Matrix.operator_paren, index_eq_ok_iff, Matrix.offset, hoff, List.getElem?_zipWith,
    h1, h2]

/-- On valid operands of the same shape, a property of all pairs of corresponding buffer
elements is a property of all pairs of corresponding in-bounds elements. -/
theorem Matrix.Valid.forall_zip_iff_entries [Zero T] {a b : Matrix T} (ha : a.Valid)
    (hb : b.Valid) (hr : a.rows_ = b.rows_) (hc : a.cols_ = b.cols_) (P : T → T → Prop) :
    (∀ p ∈ a.data_.zip b.data_, P p.1 p.2) ↔
      ∀ i j, i < a.rows_ → j < a.cols_ → P (a.entry i j) (b.entry i j) := by
  rw [forall_zip_iff]
  constructor
  · intro h i j hi hj
    exact h (i * a.cols_ + j) _ _ (ha.getElem?_eq hi hj)
      (by rw [hc]; exact hb.getElem?_eq (hr ▸ hi) (hc ▸ hj))
  · intro h k x y hx hy
    have hk : k < a.data_.length := by
      by_contra hcon
      rw [List.getElem?_eq_none (by omega)] at hx
      cases hx
    have hk' : k < a.rows_ * a.cols_ := by rw [← ha.2.2.2]; exact hk
    have hcpos : 0 < a.cols_ := by
      rcases Nat.eq_zero_or_pos a.cols_ with h0 | h0
      · rw [h0] at hk'
        simp at hk'
      · exact h0
    have hdiv : k / a.cols_ < a.rows_ := (Nat.div_lt_iff_lt_mul hcpos).mpr hk'
    have hmod : k % a.cols_ < a.cols_ := Nat.mod_lt _ hcpos
    have hsplit : k / a.cols_ * a.cols_ + k % a.cols_ = k := Nat.div_add_mod' _ _
    have h1 := ha.getElem?_eq hdiv hmod
    have h2 := hb.getElem?_eq (hr ▸ hdiv) (hc ▸ hmod)
    rw [← hc, hsplit] at h2
    rw [hsplit] at h1
    rw [hx] at h1
    rw [hy] at h2
    cases h1
    cases h2
    exact h _ _ hdiv hmod

/-! ## Multiplication and trace -/

theorem Matrix.dot_succ (a b : Matrix int) (i j n : Nat) :
    a.dot b i j (n + 1) = a.dot b i j n + (a.entry i n).val * (b.entry n j).val := by
  simp [Matrix.dot, List.range_succ]

theorem Matrix.diagonalSum_succ (m : Matrix int) (n : Nat) :
    m.diagonalSum (n + 1) = m.diagonalSum n + (m.entry n n).val := by
  simp [Matrix.diagonalSum, List.range_succ]

/-- The innermost loop of `operator*` accumulates the dot product into the cell `(i, j)`,
when no product and no partial sum overflows. -/
theorem dot_loop {a b R : Matrix int} (ha : a.Valid) (hb : b.Valid)
    (hab : a.cols_ = b.rows_) (hR : R.Valid) {i j : Nat} (hia : i < a.rows_) (hjb : j < b.cols_)
    (hi : i < R.rows_) (hj : j < R.cols_) (h0 : R.entry i j = 0)
    (hrange : ∀ k, k < a.cols_ →
      InRange ((a.entry i k).val * (b.entry k j).val) ∧ InRange (a.dot b i j (k + 1))) :
    ∃ R', forLoop 0 a.cols_
        (fun k (result : Matrix int) => do
          let x ← a.operator_paren i k
          let y ← b.operator_paren k j
          let p ← Arithmetic.mul x y
          let r ← result.operator_paren i j
          let s ← Arithmetic.add r p
          result.operator_paren_assign i j s)
        R = .ok R' ∧ R'.Valid ∧ R'.rows_ = R.rows_ ∧ R'.cols_ = R.cols_ ∧
      (R'.entry i j).val = a.dot b i j a.cols_ ∧
      ∀ i' j', i' < R.rows_ → j' < R.cols_ → (i' ≠ i ∨ j' ≠ j) →
        R'.entry i' j' = R.entry i' j' := by
  obtain ⟨R', hrun, hv, hr, hc, hcell, hframe⟩ := forLoop_inv
    (fun k (S : Matrix int) => S.Valid ∧ S.rows_ = R.rows_ ∧ S.cols_ = R.cols_ ∧
      (S.entry i j).val = a.dot b i j k ∧
      ∀ i' j', i' < R.rows_ → j' < R.cols_ → (i' ≠ i ∨ j' ≠ j) → S.entry i' j' = R.entry i' j')
    (fun k (result : Matrix int) => do
      let x ← a.operator_paren i k
      let y ← b.operator_paren k j
      let p ← Arithmetic.mul x y
      let r ← result.operator_paren i j
      let s ← Arithmetic.add r p
      result.operator_paren_assign i j s)
    a.cols_ 0 R ⟨hR, rfl, rfl, by rw [h0]; rfl, fun _ _ _ _ _ => rfl⟩
    (by
      intro k S _ hk ⟨hvS, hrS, hcS, hcell, hframe⟩
      have hk : k < a.cols_ := by omega
      have hiS : i < S.rows_ := by rw [hrS]; exact hi
      have hjS : j < S.cols_ := by rw [hcS]; exact hj
      obtain ⟨hprod, hsum⟩ := hrange k hk
      have hpv : (int.ofInt ((a.entry i k).val * (b.entry k j).val)).val
          = (a.entry i k).val * (b.entry k j).val := int.ofInt_val hprod
      have hsum' : InRange ((S.entry i j).val
          + (int.ofInt ((a.entry i k).val * (b.entry k j).val)).val) := by
        rw [hpv, hcell, ← Matrix.dot_succ]
        exact hsum
      obtain ⟨S', hrun, hvS', hrS', hcS', hcell', hframe'⟩ :=
        hvS.paren_assign_spec hiS hjS
          (int.ofInt ((S.entry i j).val
            + (int.ofInt ((a.entry i k).val * (b.entry k j).val)).val))
      refine ⟨S', ?_, hvS', hrS'.trans hrS, hcS'.trans hcS, ?_, ?_⟩
      · simp only [ha.paren_eq hia hk, hb.paren_eq (hab ▸ hk) hjb, hvS.paren_eq hiS hjS, bind,
          Except.bind, int.mul_eq _ _ hprod, int.add_eq _ _ hsum']
        exact hrun
      · rw [hcell', int.ofInt_val hsum', hpv, hcell, Matrix.dot_succ]
      · intro i' j' hi' hj' hne
        rw [hframe' i' j' (by rw [hrS]; exact hi') (by rw [hcS]; exact hj') hne]
        exact hframe i' j' hi' hj' hne)
  refine ⟨R', ?_, hv, hr, hc, ?_, hframe⟩
  · exact hrun
  · simpa using hcell

/-- The loops of `operator*` complete when the element count of the result is a `size_t`
value and no product and no partial sum overflows, and fill every cell with its dot
product. -/
theorem operator_star_spec {a b : Matrix int} (ha : a.Valid) (hb : b.Valid)
    (hab : a.cols_ = b.rows_) (hsz : a.rows_ * b.cols_ < SIZE_MOD) (hrange : a.StarInRange b) :
    ∃ R, a.operator_star b = .ok R ∧ R.Valid ∧ R.rows_ = a.rows_ ∧ R.cols_ = b.cols_ ∧
      ∀ i j, i < a.rows_ → j < b.cols_ → (R.entry i j).val = a.dot b i j a.cols_ := by
  have hnew : (Matrix.new a.rows_ b.cols_ : Matrix int).Valid := Matrix.Valid.new ha.1 hb.2.1 hsz
  have hrange : ∀ i, i < a.rows_ → ∀ j, j < b.cols_ → ∀ k, k < a.cols_ →
      InRange ((a.entry i k).val * (b.entry k j).val) ∧ InRange (a.dot b i j (k + 1)) := hrange
  unfold Matrix.operator_star
  rw [if_neg (by simpa using hab)]
  obtain ⟨R, hrun, hv, hr, hc, hall⟩ := fill_loops a.rows_ b.cols_ (fun i _ => i) (fun _ j => j)
    (fun i j => int.ofInt (a.dot b i j a.cols_))
    (fun i j result => do
      let result ← result.operator_paren_assign i j 0
      forLoop 0 a.cols_
        (fun k result => do
          let x ← a.operator_paren i k
          let y ← b.operator_paren k j
          let p ← Arithmetic.mul x y
          let r ← result.operator_paren i j
          let s ← Arithmetic.add r p
          result.operator_paren_assign i j s)
        result)
    (Matrix.new a.rows_ b.cols_) hnew
    (fun i j i' j' _ _ _ _ hp hq => ⟨hp, hq⟩)
    (fun i j hi hj => ⟨hi, hj⟩)
    (by
      intro i j R hi hj hR hr hc
      have hi' : i < R.rows_ := by rw [hr]; exact hi
      have hj' : j < R.cols_ := by rw [hc]; exact hj
      obtain ⟨R1, hrun1, hv1, hr1, hc1, hcell1, hframe1⟩ := hR.paren_assign_spec hi' hj' (0 : int)
      obtain ⟨R2, hrun2, hv2, hr2, hc2, hcell2, hframe2⟩ :=
        dot_loop ha hb hab hv1 hi hj (by rw [hr1]; exact hi') (by rw [hc1]; exact hj') hcell1
          (fun k hk => hrange i hi j hj k hk)
      refine ⟨R2, ?_, hv2, (hr2.trans hr1).trans hr, (hc2.trans hc1).trans hc, ?_, ?_⟩
      · simp only [hrun1, bind, Except.bind]
        exact hrun2
      · show R2.entry i j = int.ofInt (a.dot b i j a.cols_)
        rw [← hcell2]
        exact (int.ofInt_self _).symm
      · intro i' j' hi'' hj'' hne
        have hi1 : i' < R.rows_ := by rw [hr]; exact hi''
        have hj1 : j' < R.cols_ := by rw [hc]; exact hj''
        rw [hframe2 i' j' (by rw [hr1]; exact hi1) (by rw [hc1]; exact hj1) hne]
        exact hframe1 i' j' hi1 hj1 hne)
  refine ⟨R, hrun, hv, hr, hc, ?_⟩
  intro i j hi hj
  have hcell : R.entry i j = int.ofInt (a.dot b i j a.cols_) := hall i j hi hj
  rw [hcell]
  rcases Nat.eq_zero_or_pos a.cols_ with h0 | hpos
  · rw [h0]
    rfl
  · have := (hrange i hi j hj (a.cols_ - 1) (by omega)).2
    rw [show a.cols_ - 1 + 1 = a.cols_ from by omega] at this
    exact int.ofInt_val this

/-- When a loop completes, the invariant holds of its final state, and every iteration
completed from a state in which the invariant held. -/
theorem forLoop_ok_inv {σ : Type} (P : Nat → σ → Prop) (body : Nat → σ → Except Abort σ)
    (hbody : ∀ i s s', P i s → body i s = .ok s' → P (i + 1) s') :
    ∀ (n lo : Nat) (s s' : σ), P lo s → forLoop lo n body s = .ok s' →
      P (lo + n) s' ∧ ∀ i, lo ≤ i → i < lo + n → ∃ t t', P i t ∧ body i t = .ok t' := by
  intro n
  induction n with
  | zero =>
    intro lo s s' hs h
    cases h
    exact ⟨hs, fun i h1 h2 => absurd h2 (by omega)⟩
  | succ n ih =>
    intro lo s s' hs h
    rw [forLoop_succ] at h
    cases hb : body lo s with
    | error e => rw [hb] at h; cases h
    | ok t =>
      rw [hb] at h
      obtain ⟨hfin, hiter⟩ := ih (lo + 1) t s' (hbody lo s t hs hb) h
      refine ⟨by rw [show lo + (n + 1) = lo + 1 + n from by omega]; exact hfin, ?_⟩
      intro i h1 h2
      by_cases hi : i = lo
      · subst hi
        exact ⟨s, t, hs, hb⟩
      · exact hiter i (by omega) (by omega)

/-- The loop of `trace` completes on a valid square matrix whose diagonal sums do not
overflow, and sums the diagonal. -/
theorem trace_spec {m : Matrix int} (hv : m.Valid) (hsq : m.rows_ = m.cols_)
    (hrange : m.TraceInRange) :
    ∃ t, trace m = .ok t ∧ t.val = m.diagonalSum m.rows_ := by
  have hrange : ∀ i, i < m.rows_ → InRange (m.diagonalSum (i + 1)) := hrange
  obtain ⟨s, hrun, hs⟩ := forLoop_inv
    (fun i (s : int) => s.val = m.diagonalSum i)
    (fun i sum => do
      let v ← m.operator_paren i i
      Arithmetic.add sum v)
    m.rows_ 0 0 rfl
    (by
      intro i s _ hi hs
      have hi : i < m.rows_ := by omega
      have hr : InRange (s.val + (m.entry i i).val) := by
        rw [hs, ← Matrix.diagonalSum_succ]
        exact hrange i hi
      refine ⟨int.ofInt (s.val + (m.entry i i).val), ?_, ?_⟩
      · simp only [hv.paren_eq hi (hsq ▸ hi), bind, Except.bind, int.add_eq _ _ hr]
      · show (int.ofInt (s.val + (m.entry i i).val)).val = m.diagonalSum (i + 1)
        rw [int.ofInt_val hr, Matrix.diagonalSum_succ, hs])
  refine ⟨s, ?_, by simpa using hs⟩
  unfold trace
  rw [if_neg (by simpa [Matrix.rows, Matrix.cols] using hsq)]
  exact hrun

/-- When `trace` returns, no diagonal sum overflowed, and the result is the sum of the
diagonal. -/
theorem trace_ok_range {m : Matrix int} {t : int} (h : trace m = .ok t) :
    m.rows_ = m.cols_ ∧ m.TraceInRange ∧ t.val = m.diagonalSum m.rows_ := by
  unfold trace at h
  split at h
  · cases h
  · next hsq =>
    simp only [Matrix.rows, Matrix.cols, not_not] at hsq
    have hstep : ∀ i (s s' : int), s.val = m.diagonalSum i →
        (do
          let v ← m.operator_paren i i
          Arithmetic.add s v) = .ok s' →
        InRange (m.diagonalSum (i + 1)) ∧ s'.val = m.diagonalSum (i + 1) := by
      intro i s s' hs hrun
      obtain ⟨v, hv, hadd⟩ := bind_eq_ok _ _ _ hrun
      have hent := m.entry_of_paren i i v hv
      have := int.add_ok s v s' hadd
      rw [Matrix.diagonalSum_succ, hent, ← hs]
      exact ⟨this.1, this.2⟩
    obtain ⟨hfin, hiter⟩ := forLoop_ok_inv
      (fun i (s : int) => s.val = m.diagonalSum i)
      (fun i sum => do
        let v ← m.operator_paren i i
        Arithmetic.add sum v)
      (fun i s s' hs hrun => (hstep i s s' hs hrun).2)
      m.rows 0 0 t rfl h
    refine ⟨hsq, ?_, by simpa [Matrix.rows] using hfin⟩
    intro i hi
    obtain ⟨s, s', hs, hrun⟩ := hiter i (Nat.zero_le _) (by omega)
    exact (hstep i s s' hs hrun).1

theorem trace_thrown_iff (m : Matrix int) (e : Exception) :
    trace m = .error (.thrown e) ↔
      m.rows_ ≠ m.cols_ ∧ e = ⟨.invalid_argument, "Matrix must be square to compute trace."⟩ := by
  unfold trace
  split
  · next h =>
    constructor
    · intro h'
      cases h'
      exact ⟨h, rfl⟩
    · rintro ⟨_, rfl⟩
      rfl
  · next h =>
    constructor
    · intro h'
      refine absurd h' (forLoop_not_thrown _ ?_ _ _ _ e)
      intro i s e
      apply bind_not_thrown _ _ (Matrix.operator_paren_not_thrown _ _ _)
      intro v
      exact int.add_not_thrown _ _
    · rintro ⟨h', _⟩
      exact absurd h' h

/-- When the `size_t` product `rows * cols` of the result shape wraps to zero, the first write
of `operator*` falls outside the zero-length buffer the constructor allocated. -/
theorem operator_star_wrapped [Arithmetic T] (a b : Matrix T)
    (hab : a.cols_ = b.rows_) (hr : 0 < a.rows_) (hc : 0 < b.cols_)
    (hwrap : (a.rows_ * b.cols_) % SIZE_MOD = 0) :
    a.operator_star b = .error .undefined := by
  unfold Matrix.operator_star
  rw [if_neg (by simpa using hab)]
  apply forLoop_first_error _ _ _ _ _ hr
  apply forLoop_first_error _ _ _ _ _ hc
  have : (Matrix.new a.rows_ b.cols_ : Matrix T).operator_paren_assign 0 0 0
      = .error .undefined := by
    unfold Matrix.operator_paren_assign
    rw [indexAssign_of_le _ _ _ (by simp [Matrix.new, hwrap])]
  simp only [this, bind, Except.bind]

namespace Matrix

theorem operator_star_thrown_iff (a b : Matrix int) (e : Exception) :
    a.operator_star b = .error (.thrown e) ↔
      a.cols_ ≠ b.rows_ ∧
        e = ⟨.invalid_argument, "Matrix dimensions must agree for multiplication."⟩ := by
  unfold operator_star
  split
  · next h =>
    constructor
    · intro h'
      cases h'
      exact ⟨h, rfl⟩
    · rintro ⟨_, rfl⟩
      rfl
  · next h =>
    constructor
    · intro h'
      refine absurd h' (forLoop_not_thrown _ ?_ _ _ _ e)
      intro i R e
      apply forLoop_not_thrown
      intro j R e
      apply bind_not_thrown _ _ (operator_paren_assign_not_thrown _ _ _ _)
      intro R1
      apply forLoop_not_thrown
      intro k R e
      apply bind_not_thrown _ _ (operator_paren_not_thrown _ _ _)
      intro x
      apply bind_not_thrown _ _ (operator_paren_not_thrown _ _ _)
      intro y
      apply bind_not_thrown _ _ (int.mul_not_thrown _ _)
      intro p
      apply bind_not_thrown _ _ (operator_paren_not_thrown _ _ _)
      intro r
      apply bind_not_thrown _ _ (int.add_not_thrown _ _)
      intro s
      exact operator_paren_assign_not_thrown _ _ _ _
    · rintro ⟨h', _⟩
      exact absurd h' h

/-- The shape and the buffer length of what `operator*` returns. -/
theorem operator_star_shape [Arithmetic T] (a b R : Matrix T)
    (h : a.operator_star b = .ok R) :
    a.cols_ = b.rows_ ∧ R.rows_ = a.rows_ ∧ R.cols_ = b.cols_ ∧ R.Allocated := by
  unfold operator_star at h
  split at h
  · cases h
  · next hne =>
    simp only [not_not] at hne
    have hkeep : ∀ (S S' : Matrix T) (i j : Nat) (v : T),
        S.operator_paren_assign i j v = .ok S' →
        (S.rows_ = a.rows_ ∧ S.cols_ = b.cols_ ∧
          S.data_.length = (a.rows_ * b.cols_) % SIZE_MOD) →
        (S'.rows_ = a.rows_ ∧ S'.cols_ = b.cols_ ∧
          S'.data_.length = (a.rows_ * b.cols_) % SIZE_MOD) := by
      intro S S' i j v hrun hS
      have h1 := operator_paren_assign_shape _ _ _ _ _ hrun
      have h2 := operator_paren_assign_length _ _ _ _ _ hrun
      exact ⟨h1.1.trans hS.1, h1.2.trans hS.2.1, h2.2.trans hS.2.2⟩
    have key := forLoop_preserves
      (fun (S : Matrix T) => S.rows_ = a.rows_ ∧ S.cols_ = b.cols_ ∧
        S.data_.length = (a.rows_ * b.cols_) % SIZE_MOD) _ ?_ _ 0
      (Matrix.new a.rows_ b.cols_) R ⟨rfl, rfl, by simp [Matrix.new]⟩ h
    · refine ⟨hne, key.1, key.2.1, ?_⟩
      unfold Allocated
      rw [key.2.2, key.1, key.2.1]
    intro i S S' hS hrun
    refine forLoop_preserves
      (fun (S : Matrix T) => S.rows_ = a.rows_ ∧ S.cols_ = b.cols_ ∧
        S.data_.length = (a.rows_ * b.cols_) % SIZE_MOD) _ ?_ _ 0 _ S' hS hrun
    intro j S S' hS hrun
    obtain ⟨S1, h1, hrun⟩ := bind_eq_ok _ _ _ hrun
    refine forLoop_preserves
      (fun (S : Matrix T) => S.rows_ = a.rows_ ∧ S.cols_ = b.cols_ ∧
        S.data_.length = (a.rows_ * b.cols_) % SIZE_MOD) _ ?_ _ 0 _ S'
      (hkeep _ _ _ _ _ h1 hS) hrun
    intro k S S' hS hrun
    obtain ⟨x, _, hrun⟩ := bind_eq_ok _ _ _ hrun
    obtain ⟨y, _, hrun⟩ := bind_eq_ok _ _ _ hrun
    obtain ⟨p, _, hrun⟩ := bind_eq_ok _ _ _ hrun
    obtain ⟨r, _, hrun⟩ := bind_eq_ok _ _ _ hrun
    obtain ⟨s, _, hrun⟩ := bind_eq_ok _ _ _ hrun
    exact hkeep _ _ _ _ _ hrun hS

end Matrix

/-- When `operator*` returns, the element count of its result did not wrap: otherwise the
write `result(i, j) = 0` of the cell whose offset is the length of the buffer is outside
the buffer. -/
theorem operator_star_ok_size [Arithmetic T] (a b R : Matrix T)
    (h : a.operator_star b = .ok R) : a.rows_ * b.cols_ < SIZE_MOD := by
  by_contra hge
  have hge : SIZE_MOD ≤ a.rows_ * b.cols_ := Nat.le_of_not_lt hge
  have hmod : 0 < SIZE_MOD := by norm_num [SIZE_MOD]
  have hL : (a.rows_ * b.cols_) % SIZE_MOD < SIZE_MOD := Nat.mod_lt _ hmod
  have hcpos : 0 < b.cols_ := by
    rcases Nat.eq_zero_or_pos b.cols_ with h0 | h0
    · rw [h0] at hge
      simp at hge
      omega
    · exact h0
  have hi : (a.rows_ * b.cols_) % SIZE_MOD / b.cols_ < a.rows_ :=
    (Nat.div_lt_iff_lt_mul hcpos).mpr (by omega)
  have hj : (a.rows_ * b.cols_) % SIZE_MOD % b.cols_ < b.cols_ := Nat.mod_lt _ hcpos
  have hsplit : (a.rows_ * b.cols_) % SIZE_MOD / b.cols_ * b.cols_
      + (a.rows_ * b.cols_) % SIZE_MOD % b.cols_ = (a.rows_ * b.cols_) % SIZE_MOD :=
    Nat.div_add_mod' _ _
  unfold Matrix.operator_star at h
  split at h
  · cases h
  · have hkeep : ∀ (S S' : Matrix T) (i j : Nat),
        (S.cols_ = b.cols_ ∧ S.data_.length = (a.rows_ * b.cols_) % SIZE_MOD) →
        (do
          let result ← S.operator_paren_assign i j 0
          forLoop 0 a.cols_
            (fun k (result : Matrix T) => do
              let x ← a.operator_paren i k
              let y ← b.operator_paren k j
              let p ← Arithmetic.mul x y
              let r ← result.operator_paren i j
              let s ← Arithmetic.add r p
              result.operator_paren_assign i j s)
            result) = .ok S' →
        (S'.cols_ = b.cols_ ∧ S'.data_.length = (a.rows_ * b.cols_) % SIZE_MOD) := by
      intro S S' i j hS hrun
      obtain ⟨S1, h1, hrun⟩ := bind_eq_ok _ _ _ hrun
      have hS1 := Matrix.operator_paren_assign_length _ _ _ _ _ h1
      refine forLoop_preserves
        (fun (U : Matrix T) =>
          U.cols_ = b.cols_ ∧ U.data_.length = (a.rows_ * b.cols_) % SIZE_MOD)
        _ ?_ _ 0 S1 S' ⟨hS1.1.trans hS.1, hS1.2.trans hS.2⟩ hrun
      intro k U U' hU hrun
      obtain ⟨x, _, hrun⟩ := bind_eq_ok _ _ _ hrun
      obtain ⟨y, _, hrun⟩ := bind_eq_ok _ _ _ hrun
      obtain ⟨p, _, hrun⟩ := bind_eq_ok _ _ _ hrun
      obtain ⟨r, _, hrun⟩ := bind_eq_ok _ _ _ hrun
      obtain ⟨s, _, hrun⟩ := bind_eq_ok _ _ _ hrun
      have hU' := Matrix.operator_paren_assign_length _ _ _ _ _ hrun
      exact ⟨hU'.1.trans hU.1, hU'.2.trans hU.2⟩
    obtain ⟨S, S', hS, hrow⟩ := forLoop_ok_iter
      (fun (U : Matrix T) =>
        U.cols_ = b.cols_ ∧ U.data_.length = (a.rows_ * b.cols_) % SIZE_MOD)
      _ (fun i U U' hU hrun =>
        forLoop_preserves
          (fun (V : Matrix T) =>
            V.cols_ = b.cols_ ∧ V.data_.length = (a.rows_ * b.cols_) % SIZE_MOD)
          _ (fun j V V' hV hrun' => hkeep V V' i j hV hrun') _ 0 U U' hU hrun)
      _ 0 (Matrix.new a.rows_ b.cols_) R ⟨rfl, by simp [Matrix.new]⟩ h
      ((a.rows_ * b.cols_) % SIZE_MOD / b.cols_) (Nat.zero_le _) (by omega)
    obtain ⟨U, U', hU, hcell⟩ := forLoop_ok_iter
      (fun (V : Matrix T) =>
        V.cols_ = b.cols_ ∧ V.data_.length = (a.rows_ * b.cols_) % SIZE_MOD)
      _ (fun j V V' hV hrun' => hkeep V V' _ j hV hrun') _ 0 S S' hS hrow
      ((a.rows_ * b.cols_) % SIZE_MOD % b.cols_) (Nat.zero_le _) (by omega)
    obtain ⟨U1, h1, _⟩ := bind_eq_ok _ _ _ hcell
    have hout := (Matrix.access_outside U
      ((a.rows_ * b.cols_) % SIZE_MOD / b.cols_) ((a.rows_ * b.cols_) % SIZE_MOD % b.cols_)
      (by
        simp only [Matrix.offset, hU.1, hsplit, Nat.mod_eq_of_lt hL, hU.2]
        exact Nat.le_refl _)).2 0
    rw [hout] at h1
    cases h1

/-- The matrix a call of `operator*` on valid operands returns is valid. -/
theorem operator_star_valid [Arithmetic T] {a b : Matrix T} (ha : a.Valid)
    (hb : b.Valid) (R : Matrix T) (h : a.operator_star b = .ok R) : R.Valid := by
  have hsz := operator_star_ok_size a b R h
  obtain ⟨_, hr, hc, hlen⟩ := Matrix.operator_star_shape a b R h
  unfold Matrix.Allocated at hlen
  rw [hr, hc, Nat.mod_eq_of_lt hsz] at hlen
  exact ⟨by rw [hr]; exact ha.1, by rw [hc]; exact hb.2.1, by rw [hr, hc]; exact hsz,
    by rw [hlen, hr, hc]⟩

/-! ## Identity matrices and transposed products -/

theorem Matrix.IsIdentity.entry {I : Matrix int} {n : Nat} (h : I.IsIdentity n) {i j : Nat}
    (hi : i < n) (hj : j < n) : (I.entry i j).val = if i = j then 1 else 0 := by
  rw [I.entry_of_paren i j _ (h.2.2.2 i hi j hj)]
  split <;> rfl

/-- The partial sums of a row of an identity matrix with a column of `m`. -/
theorem identity_dot_left {I m : Matrix int} {n : Nat} (hI : I.IsIdentity n) {i : Nat}
    (hi : i < n) (j k : Nat) (hk : k ≤ n) :
    I.dot m i j k = if i < k then (m.entry i j).val else 0 := by
  have := foldl_range_single (fun k' => (I.entry i k').val * (m.entry k' j).val) i k
    (by
      intro k' hk' hne
      show (I.entry i k').val * (m.entry k' j).val = 0
      rw [hI.entry hi (by omega), if_neg (fun h => hne h.symm)]
      simp)
  simp only [Matrix.dot]
  rw [this]
  split
  · show (I.entry i i).val * (m.entry i j).val = (m.entry i j).val
    rw [hI.entry hi hi]
    simp
  · rfl

/-- The partial sums of a row of `m` with a column of an identity matrix. -/
theorem identity_dot_right {I m : Matrix int} {n : Nat} (hI : I.IsIdentity n) (i : Nat)
    {j : Nat} (hj : j < n) (k : Nat) (hk : k ≤ n) :
    m.dot I i j k = if j < k then (m.entry i j).val else 0 := by
  have := foldl_range_single (fun k' => (m.entry i k').val * (I.entry k' j).val) j k
    (by
      intro k' hk' hne
      show (m.entry i k').val * (I.entry k' j).val = 0
      rw [hI.entry (by omega) hj, if_neg hne]
      simp)
  simp only [Matrix.dot]
  rw [this]
  split
  · show (m.entry i j).val * (I.entry j j).val = (m.entry i j).val
    rw [hI.entry hj hj]
    simp
  · rfl

/-- Multiplying by an identity matrix on the left gives the matrix back. -/
theorem identity_star {I m : Matrix int} (hI : I.IsIdentity m.rows_) (hv : m.Valid) :
    I.operator_star m = .ok m := by
  have hIv : I.Valid := hI.1
  have hIr' : I.rows_ = m.rows_ := hI.2.1
  have hIc' : I.cols_ = m.rows_ := hI.2.2.1
  have hrange : I.StarInRange m := by
    intro i hi j hj k hk
    have hi' : i < m.rows_ := by rw [← hIr']; exact hi
    have hk' : k < m.rows_ := by rw [← hIc']; exact hk
    constructor
    · rw [hI.entry hi' hk']
      split
      · simpa using (m.entry k j).inRange
      · simp only [zero_mul]
        decide
    · rw [identity_dot_left hI hi' j (k + 1) (by omega)]
      split
      · exact (m.entry i j).inRange
      · decide
  obtain ⟨R, hrun, hvR, hr, hc, hall⟩ :=
    operator_star_spec hIv hv hIc' (by rw [hIr']; exact hv.2.2.1) hrange
  rw [hrun]
  congr 1
  apply hvR.ext hv (hr.trans hIr') hc
  intro i j hi hj
  have hi' : i < m.rows_ := by rw [← hIr', ← hr]; exact hi
  have hj' : j < m.cols_ := by rw [← hc]; exact hj
  apply int.eq_of_val_eq
  rw [hall i j (by rw [hIr']; exact hi') hj', hIc',
    identity_dot_left hI hi' j m.rows_ (Nat.le_refl _), if_pos hi']

/-- Multiplying by an identity matrix on the right gives the matrix back. -/
theorem star_identity {I m : Matrix int} (hI : I.IsIdentity m.cols_) (hv : m.Valid) :
    m.operator_star I = .ok m := by
  have hIv : I.Valid := hI.1
  have hIr' : I.rows_ = m.cols_ := hI.2.1
  have hIc' : I.cols_ = m.cols_ := hI.2.2.1
  have hrange : m.StarInRange I := by
    intro i hi j hj k hk
    have hj' : j < m.cols_ := by rw [← hIc']; exact hj
    have hk' : k < m.cols_ := hk
    constructor
    · rw [hI.entry hk' hj']
      split
      · simpa using (m.entry i k).inRange
      · simp only [mul_zero]
        decide
    · rw [identity_dot_right hI i hj' (k + 1) (by omega)]
      split
      · exact (m.entry i j).inRange
      · decide
  obtain ⟨R, hrun, hvR, hr, hc, hall⟩ :=
    operator_star_spec hv hIv hIr'.symm (by rw [hIc']; exact hv.2.2.1) hrange
  rw [hrun]
  congr 1
  apply hvR.ext hv hr (hc.trans hIc')
  intro i j hi hj
  have hi' : i < m.rows_ := by rw [← hr]; exact hi
  have hj' : j < m.cols_ := by rw [← hIc', ← hc]; exact hj
  apply int.eq_of_val_eq
  rw [hall i j hi' (by rw [hIc']; exact hj'),
    identity_dot_right hI i hj' m.cols_ (Nat.le_refl _), if_pos hj']

/-- The transpose of a product and the product of the transposes in reverse order are the
same matrix, when the element count of the product is a `size_t` value and nothing
overflows. -/
theorem transpose_star {a b : Matrix int} (ha : a.Valid) (hb : b.Valid)
    (hab : a.cols_ = b.rows_) (hsz : a.rows_ * b.cols_ < SIZE_MOD) (hrange : a.StarInRange b) :
    ∃ P Pt Bt At, a.operator_star b = .ok P ∧ transpose P = .ok Pt ∧ transpose b = .ok Bt ∧
      transpose a = .ok At ∧ Bt.operator_star At = .ok Pt ∧ Pt.Valid ∧
      Pt.rows_ = b.cols_ ∧ Pt.cols_ = a.rows_ := by
  obtain ⟨P, hP, hvP, hrP, hcP, hallP⟩ := operator_star_spec ha hb hab hsz hrange
  obtain ⟨Pt, hPt, hvPt, hrPt, hcPt, hallPt⟩ := transpose_spec hvP
  obtain ⟨Bt, hBt, hvBt, hrBt, hcBt, hallBt⟩ := transpose_spec hb
  obtain ⟨At, hAt, hvAt, hrAt, hcAt, hallAt⟩ := transpose_spec ha
  have hdot : ∀ i j n, i < a.rows_ → j < b.cols_ → n ≤ a.cols_ →
      Bt.dot At j i n = a.dot b i j n := by
    intro i j n hi hj hn
    simp only [Matrix.dot]
    apply foldl_range_congr (fun k => (Bt.entry j k).val * (At.entry k i).val)
      (fun k => (a.entry i k).val * (b.entry k j).val)
    intro k hk
    show (Bt.entry j k).val * (At.entry k i).val = (a.entry i k).val * (b.entry k j).val
    rw [hallBt k j (by rw [← hab]; omega) hj, hallAt i k hi (by omega), Int.mul_comm]
  have hrange' : Bt.StarInRange At := by
    intro j hj i hi k hk
    have hj' : j < b.cols_ := by rw [← hrBt]; exact hj
    have hi' : i < a.rows_ := by rw [← hcAt]; exact hi
    have hk' : k < a.cols_ := by rw [hab, ← hcBt]; exact hk
    have := hrange i hi' j hj' k hk'
    rw [hdot i j (k + 1) hi' hj' (by omega), hallBt k j (by rw [← hab]; exact hk') hj',
      hallAt i k hi' hk', Int.mul_comm]
    exact this
  obtain ⟨Q, hQ, hvQ, hrQ, hcQ, hallQ⟩ := operator_star_spec hvBt hvAt
    (by rw [hcBt, hrAt, hab])
    (by rw [hrBt, hcAt, Nat.mul_comm]; exact hsz) hrange'
  have hrows : Pt.rows_ = b.cols_ := hrPt.trans hcP
  have hcols : Pt.cols_ = a.rows_ := hcPt.trans hrP
  have heq : Pt = Q := by
    apply hvPt.ext hvQ (by rw [hrows, hrQ, hrBt]) (by rw [hcols, hcQ, hcAt])
    intro j i hj hi
    have hj' : j < b.cols_ := by rw [← hrows]; exact hj
    have hi' : i < a.rows_ := by rw [← hcols]; exact hi
    apply int.eq_of_val_eq
    rw [hallPt i j (by rw [hrP]; exact hi') (by rw [hcP]; exact hj'), hallP i j hi' hj',
      hallQ j i (by rw [hrBt]; exact hj') (by rw [hcAt]; exact hi'), hcBt, ← hab,
      hdot i j a.cols_ hi' hj' (Nat.le_refl _)]
  exact ⟨P, Pt, Bt, At, hP, hPt, hBt, hAt, heq ▸ hQ, hvPt, hrows, hcols⟩

/-! ## Sums and differences of buffers -/

theorem zipWith_add_sub_cancel : ∀ (A B : List int), A.length = B.length →
    (∀ p ∈ A.zip B, InRange (p.1.val + p.2.val)) →
    List.zipWith (fun x y => int.ofInt (x.val - y.val))
      (List.zipWith (fun x y => int.ofInt (x.val + y.val)) A B) B = A
  | [], _, _, _ => by simp
  | x :: A, [], h, _ => by simp at h
  | x :: A, y :: B, h, hr => by
    have ih := zipWith_add_sub_cancel A B (by simpa using h)
      (fun p hp => hr p (by simp [hp]))
    have hxy : InRange (x.val + y.val) := hr (x, y) (by simp)
    have hhead : int.ofInt ((int.ofInt (x.val + y.val)).val - y.val) = x := by
      rw [int.ofInt_val hxy, Int.add_sub_cancel]
      exact int.ofInt_self x
    simp [ih, hhead]

theorem zipWith_add_comm : ∀ (A B : List int),
    List.zipWith (fun x y => int.ofInt (x.val + y.val)) A B
      = List.zipWith (fun x y => int.ofInt (x.val + y.val)) B A
  | [], B => by simp
  | x :: A, [] => by simp
  | x :: A, y :: B => by
    have ih := zipWith_add_comm A B
    simp [ih, Int.add_comm]

theorem Matrix.plusInRange_comm (a b : Matrix int) : a.PlusInRange b ↔ b.PlusInRange a := by
  rw [Matrix.plusInRange_iff, Matrix.plusInRange_iff]
  constructor
  · intro h k x y hx hy
    rw [Int.add_comm]
    exact h k y x hy hx
  · intro h k x y hx hy
    rw [Int.add_comm]
    exact h k y x hy hx

/-- Subtracting `b` from the element-wise sums of `a` and `b` does not overflow. -/
theorem Matrix.minusInRange_of_sum (a b : Matrix int) (hrange : a.PlusInRange b) :
    (Matrix.mk a.rows_ a.cols_
      (List.zipWith (fun x y => int.ofInt (x.val + y.val)) a.data_ b.data_)).MinusInRange b := by
  rw [Matrix.minusInRange_iff]
  intro k x y hx hy
  obtain ⟨x', y', hx', hy', hxy⟩ := List.getElem?_zipWith_eq_some.mp hx
  have hyy : y' = y := by
    rw [hy] at hy'
    cases hy'
    rfl
  subst hyy
  have hr := (Matrix.plusInRange_iff a b).mp hrange k x' y' hx' hy'
  rw [← hxy, int.ofInt_val hr, Int.add_sub_cancel]
  exact x'.inRange

/-- A call either returns or ends with an error. -/
theorem error_iff_not_ok {α : Type} (x : Except Abort α) :
    (∃ e, x = .error e) ↔ ¬ ∃ v, x = .ok v := by
  cases x with
  | ok v => simp
  | error e => simp

/-- The buffer of what `transpose` returns has the length its constructor allocated. -/
theorem transpose_allocated [Zero T] (m R : Matrix T) (h : transpose m = .ok R) :
    R.rows_ = m.cols_ ∧ R.cols_ = m.rows_ ∧ R.Allocated := by
  have hkeep : ∀ (S S' : Matrix T) (i j : Nat) (v : T),
      S.operator_paren_assign i j v = .ok S' →
      (S.rows_ = m.cols_ ∧ S.cols_ = m.rows_ ∧
        S.data_.length = (m.cols_ * m.rows_) % SIZE_MOD) →
      (S'.rows_ = m.cols_ ∧ S'.cols_ = m.rows_ ∧
        S'.data_.length = (m.cols_ * m.rows_) % SIZE_MOD) := by
    intro S S' i j v hrun hS
    have h1 := Matrix.operator_paren_assign_shape _ _ _ _ _ hrun
    have h2 := Matrix.operator_paren_assign_length _ _ _ _ _ hrun
    exact ⟨h1.1.trans hS.1, h1.2.trans hS.2.1, h2.2.trans hS.2.2⟩
  have key := forLoop_preserves
    (fun (S : Matrix T) => S.rows_ = m.cols_ ∧ S.cols_ = m.rows_ ∧
      S.data_.length = (m.cols_ * m.rows_) % SIZE_MOD) _ ?_ _ 0
    (Matrix.new m.cols m.rows) R ⟨rfl, rfl, by simp [Matrix.new, Matrix.rows, Matrix.cols]⟩ h
  · refine ⟨key.1, key.2.1, ?_⟩
    unfold Matrix.Allocated
    rw [key.2.2, key.1, key.2.1]
  intro i S S' hS hrun
  refine forLoop_preserves
    (fun (S : Matrix T) => S.rows_ = m.cols_ ∧ S.cols_ = m.rows_ ∧
      S.data_.length = (m.cols_ * m.rows_) % SIZE_MOD) _ ?_ _ 0 _ S' hS hrun
  intro j S S' hS hrun
  obtain ⟨v, _, hrun⟩ := bind_eq_ok _ _ _ hrun
  exact hkeep _ _ _ _ _ hrun hS

/-- Every object of the class holds the buffer its constructor allocates for its shape:
the constructor establishes it, and element writes, moves, `+`, `-`, `*` and `transpose`
keep it. -/
theorem allocated_kept :
    (∀ rows cols, (Matrix.new rows cols : Matrix int).Allocated) ∧
    (∀ (m m' : Matrix int) i j v, m.operator_paren_assign i j v = .ok m' → m.Allocated →
      m'.Allocated) ∧
    (∀ s : Matrix int, s.Allocated →
      (s.move_construct).1.Allocated ∧ (s.move_construct).2.Allocated) ∧
    (∀ (mem : Memory int) d s, (∀ q, (mem q).Allocated) →
      ∀ q, (Matrix.operator_assign_move mem d s q).Allocated) ∧
    (∀ a b R : Matrix int,
      (a.operator_plus b = .ok R ∨ a.operator_minus b = .ok R ∨ a.operator_star b = .ok R ∨
        transpose a = .ok R) → R.Allocated) := by
  refine ⟨?_, ?_, ?_, ?_, ?_⟩
  · intro rows cols
    simp [Matrix.Allocated, Matrix.new]
  · intro m m' i j v hrun hm
    have h1 := Matrix.operator_paren_assign_shape m m' i j v hrun
    have h2 := Matrix.operator_paren_assign_length m m' i j v hrun
    unfold Matrix.Allocated at hm ⊢
    rw [h2.2, h1.1, h1.2]
    exact hm
  · intro s hs
    exact ⟨hs, rfl⟩
  · intro mem d s hall q
    by_cases h : d = s
    · subst h
      have : Matrix.operator_assign_move mem d d = mem := by
        unfold Matrix.operator_assign_move
        rw [if_neg (by simp)]
      rw [this]
      exact hall q
    · obtain ⟨h1, h2, h3⟩ := Matrix.operator_assign_move_spec mem d s h
      by_cases hqd : q = d
      · rw [hqd, h1]
        exact hall s
      · by_cases hqs : q = s
        · rw [hqs, h2]
          rfl
        · rw [h3 q hqd hqs]
          exact hall q
  · intro a b R h
    rcases h with h | h | h | h
    · exact (Matrix.operator_plus_shape a b R h).2.2.2.2
    · exact (Matrix.operator_minus_shape a b R h).2.2.2.2
    · exact (Matrix.operator_star_shape a b R h).2.2.2
    · exact (transpose_allocated a R h).2.2

/-! ## The claims -/

/-- C1, counterexample: `tall` (shape `(2 ^ 32, 1)`) and `wide` (shape `(1, 2 ^ 32)`) are valid
matrices with `tall.cols == wide.rows`, yet `tall * wide` does not return: the result shape
has `2 ^ 64` elements, the `size_t` product wraps to `0`, and the first write `result(0, 0)`
is outside the allocated buffer.  And `[[65536]] * [[65536]]` does not return either: the
product `65536 * 65536` is not an `int`. -/
theorem C1_counterexample :
    tall.Valid ∧ wide.Valid ∧ tall.cols_ = wide.rows_ ∧
      tall.operator_star wide = .error .undefined ∧
      mat65536.Valid ∧ mat65536.cols_ = mat65536.rows_ ∧
      mat65536.operator_star mat65536 = .error .undefined := by
  have h32 : (2 : Nat) ^ 32 < SIZE_MOD := by norm_num [SIZE_MOD]
  have h1 : (1 : Nat) < SIZE_MOD := by norm_num [SIZE_MOD]
  have hrows : tall.rows_ = 2 ^ 32 := rfl
  have hcols : wide.cols_ = 2 ^ 32 := rfl
  refine ⟨Matrix.Valid.new h32 h1 (by norm_num [SIZE_MOD]),
    Matrix.Valid.new h1 h32 (by norm_num [SIZE_MOD]), rfl, ?_, by decide, rfl, rfl⟩
  apply operator_star_wrapped tall wide rfl
  · rw [hrows]
    norm_num
  · rw [hcols]
    norm_num
  · rw [hrows, hcols]
    norm_num [SIZE_MOD]

/-- C1, amended: for valid `int` matrices `a`, `b` with `a.cols == b.rows` whose result
element count `a.rows * b.cols` is below `2 ^ 64`, and for which no product `a(i,k) * b(k,j)`
and no partial sum of the accumulation leaves the range of `int`, `operator*` returns a
matrix of shape `(a.rows, b.cols)` whose element `(i, j)` is the sum of `a(i,k) * b(k,j)`
accumulated left to right in ascending `k` from zero, `a(i,k)` and `b(k,j)` being the
elements `operator()` reads. -/
theorem C1_operator_star (a b : Matrix int) (ha : a.Valid) (hb : b.Valid)
    (hab : a.cols_ = b.rows_) (hsz : a.rows_ * b.cols_ < SIZE_MOD) (hrange : a.StarInRange b) :
    ∃ R, a.operator_star b = .ok R ∧ R.rows = a.rows ∧ R.cols = b.cols ∧
      ∀ i j, i < a.rows → j < b.cols →
        (∃ v, R.operator_paren i j = .ok v ∧
          v.val = (List.range a.cols).foldl
            (fun acc k => acc + (a.entry i k).val * (b.entry k j).val) 0) ∧
          ∀ k, k < a.cols →
            a.operator_paren i k = .ok (a.entry i k) ∧
              b.operator_paren k j = .ok (b.entry k j) := by
  obtain ⟨R, hrun, hv, hr, hc, hall⟩ := operator_star_spec ha hb hab hsz hrange
  refine ⟨R, hrun, hr, hc, ?_⟩
  intro i j hi hj
  refine ⟨⟨R.entry i j, hv.paren_eq (by rw [hr]; exact hi) (by rw [hc]; exact hj),
    hall i j hi hj⟩, fun k hk => ⟨ha.paren_eq hi hk, hb.paren_eq (hab ▸ hk) hj⟩⟩

/-- C1, witness: the product of the two matrices of `main`. -/
theorem C1_witness :
    mat1.operator_star mat2
        = .ok { rows_ := 2, cols_ := 2, data_ := ints [19, 22, 43, 50] } ∧
      ∃ R, mat1.operator_star mat2 = .ok R ∧ R.rows = mat1.rows ∧ R.cols = mat2.cols ∧
        ∀ i j, i < mat1.rows → j < mat2.cols →
          (∃ v, R.operator_paren i j = .ok v ∧
            v.val = (List.range mat1.cols).foldl
              (fun acc k => acc + (mat1.entry i k).val * (mat2.entry k j).val) 0) ∧
            ∀ k, k < mat1.cols →
              mat1.operator_paren i k = .ok (mat1.entry i k) ∧
                mat2.operator_paren k j = .ok (mat2.entry k j) :=
  ⟨by decide, C1_operator_star mat1 mat2 (by decide) (by decide) rfl (by decide) (by decide)⟩

/-- C2, counterexample: `[[2147483647]] + [[1]]` and `[[-2147483648]] - [[1]]` do not return,
because the element sum and the element difference are not `int` values; and the sum of
the constructor-built `Matrix<int>(4294967296, 4294967296)` with itself is a matrix whose
in-bounds element `(0, 0)` cannot be read, its buffer being empty. -/
theorem C2_counterexample :
    matMax.Valid ∧ matMin.Valid ∧ matOne.Valid ∧
      matMax.rows = matOne.rows ∧ matMax.cols = matOne.cols ∧
      matMin.rows = matOne.rows ∧ matMin.cols = matOne.cols ∧
      matMax.operator_plus matOne = .error .undefined ∧
      matMin.operator_minus matOne = .error .undefined ∧
      wrapped.operator_plus wrapped = .ok wrapped ∧ 0 < wrapped.rows ∧ 0 < wrapped.cols ∧
      wrapped.operator_paren 0 0 = .error .undefined :=
  ⟨by decide, by decide, by decide, rfl, rfl, rfl, rfl, rfl, rfl, rfl, by decide, by decide,
    rfl⟩

/-- C2, amended: for valid `int` matrices `a`, `b` of the same shape, `operator+` returns
when no element sum `a(i,j) + b(i,j)` leaves the range of `int`, `operator-` when no
element difference `a(i,j) - b(i,j)` does; the result has that same shape and its element
`(i, j)` is `a(i,j) + b(i,j)`, respectively `a(i,j) - b(i,j)`, where `a(i,j)` and `b(i,j)`
are the elements `operator()` reads; and a declaration `Matrix<int> c = a + b` or `Matrix<int> c = a - b` leaves both
operands as they were. -/
theorem C2_plus_minus (a b : Matrix int) (ha : a.Valid) (hb : b.Valid)
    (hr : a.rows = b.rows) (hc : a.cols = b.cols) :
    (a.PlusInRange b →
      ∃ R, a.operator_plus b = .ok R ∧ R.rows = a.rows ∧ R.cols = a.cols ∧
        ∀ i j, i < a.rows → j < a.cols →
          ∃ v, R.operator_paren i j = .ok v ∧
            v.val = (a.entry i j).val + (b.entry i j).val) ∧
    (a.MinusInRange b →
      ∃ R, a.operator_minus b = .ok R ∧ R.rows = a.rows ∧ R.cols = a.cols ∧
        ∀ i j, i < a.rows → j < a.cols →
          ∃ v, R.operator_paren i j = .ok v ∧
            v.val = (a.entry i j).val - (b.entry i j).val) ∧
    (∀ i j, i < a.rows → j < a.cols →
      a.operator_paren i j = .ok (a.entry i j) ∧ b.operator_paren i j = .ok (b.entry i j)) ∧
    (a.PlusInRange b ↔
      ∀ i j, i < a.rows → j < a.cols → InRange ((a.entry i j).val + (b.entry i j).val)) ∧
    (a.MinusInRange b ↔
      ∀ i j, i < a.rows → j < a.cols → InRange ((a.entry i j).val - (b.entry i j).val)) ∧
    (∀ (mem mem' : Memory int) (this_ other dst : Nat), mem this_ = a → mem other = b →
      dst ≠ this_ → dst ≠ other →
      (Matrix.declare_sum mem this_ other dst = .ok mem' ∨
        Matrix.declare_difference mem this_ other dst = .ok mem') →
      mem' this_ = a ∧ mem' other = b) := by
  have hr' : a.rows_ = b.rows_ := hr
  have hc' : a.cols_ = b.cols_ := hc
  refine ⟨?_, ?_, ?_,
    ha.forall_zip_iff_entries hb hr' hc' (fun x y => InRange (x.val + y.val)),
    ha.forall_zip_iff_entries hb hr' hc' (fun x y => InRange (x.val - y.val)), ?_⟩
  · intro hrange
    refine ⟨_, ha.allocated.operator_plus_eq hb.allocated hr' hc' hrange, rfl, rfl, ?_⟩
    intro i j hi hj
    have hsum := (Matrix.plusInRange_iff a b).mp hrange (i * a.cols_ + j) _ _
      (ha.getElem?_eq hi hj) (by rw [hc']; exact hb.getElem?_eq (hr' ▸ hi) (hc' ▸ hj))
    exact ⟨_, ha.zipWith_paren hb hr' hc' _ hi hj, int.ofInt_val hsum⟩
  · intro hrange
    refine ⟨_, ha.allocated.operator_minus_eq hb.allocated hr' hc' hrange, rfl, rfl, ?_⟩
    intro i j hi hj
    have hsub := (Matrix.minusInRange_iff a b).mp hrange (i * a.cols_ + j) _ _
      (ha.getElem?_eq hi hj) (by rw [hc']; exact hb.getElem?_eq (hr' ▸ hi) (hc' ▸ hj))
    exact ⟨_, ha.zipWith_paren hb hr' hc' _ hi hj, int.ofInt_val hsub⟩
  · intro i j hi hj
    exact ⟨ha.paren_eq hi hj, hb.paren_eq (hr' ▸ hi) (hc' ▸ hj)⟩
  · intro mem mem' this_ other dst h1 h2 hd1 hd2 hrun
    have hd1' : this_ ≠ dst := fun h => hd1 h.symm
    have hd2' : other ≠ dst := fun h => hd2 h.symm
    rcases hrun with h | h
    · unfold Matrix.declare_sum at h
      split at h
      · cases h
        simp [Memory.store, hd1', hd2', h1, h2]
      · cases h
    · unfold Matrix.declare_difference at h
      split at h
      · cases h
        simp [Memory.store, hd1', hd2', h1, h2]
      · cases h

/-- C2, witness: the sum and the difference of the two matrices of `main`, and the sum of
two `(0, 0)` matrices. -/
theorem C2_witness :
    mat1.operator_plus mat2 = .ok { rows_ := 2, cols_ := 2, data_ := ints [6, 8, 10, 12] } ∧
      empty00.operator_plus empty00 = .ok { rows_ := 0, cols_ := 0, data_ := [] } ∧
      (∃ R, mat1.operator_plus mat2 = .ok R ∧ R.rows = mat1.rows ∧ R.cols = mat1.cols ∧
        ∀ i j, i < mat1.rows → j < mat1.cols →
          ∃ v, R.operator_paren i j = .ok v ∧
            v.val = (mat1.entry i j).val + (mat2.entry i j).val) ∧
      (∃ R, mat1.operator_minus mat2 = .ok R ∧ R.rows = mat1.rows ∧ R.cols = mat1.cols ∧
        ∀ i j, i < mat1.rows → j < mat1.cols →
          ∃ v, R.operator_paren i j = .ok v ∧
            v.val = (mat1.entry i j).val - (mat2.entry i j).val) :=
  ⟨by decide, by decide,
    (C2_plus_minus mat1 mat2 (by decide) (by decide) rfl rfl).1 (by decide),
    (C2_plus_minus mat1 mat2 (by decide) (by decide) rfl rfl).2.1 (by decide)⟩

/-- C3, counterexample: on the constructor-built `Matrix<int>(4294967296, 4294967296)`,
whose buffer has `0` elements, `transpose` does not return: its first read `matrix(0, 0)`
is outside the buffer. -/
theorem C3_counterexample :
    0 < wrapped.rows ∧ 0 < wrapped.cols ∧ wrapped.data_ = [] ∧
      transpose wrapped = .error .undefined :=
  ⟨by decide, by decide, rfl, rfl⟩

/-- C3, amended: for every valid matrix `m` (its buffer holds `rows * cols < 2 ^ 64`
elements), of any shape, the shapes with zero rows or zero columns included, `transpose`
returns a matrix of shape `(m.cols, m.rows)` whose element `(j, i)` is the element
`m(i, j)`. -/
theorem C3_transpose (m : Matrix int) (hv : m.Valid) :
    ∃ R, transpose m = .ok R ∧ R.rows = m.cols ∧ R.cols = m.rows ∧
      ∀ i j, i < m.rows → j < m.cols →
        R.operator_paren j i = m.operator_paren i j ∧
          m.operator_paren i j = .ok (m.entry i j) := by
  obtain ⟨R, hrun, hvR, hr, hc, hall⟩ := transpose_spec hv
  refine ⟨R, hrun, hr, hc, ?_⟩
  intro i j hi hj
  rw [hvR.paren_eq (by rw [hr]; exact hj) (by rw [hc]; exact hi), hall i j hi hj,
    hv.paren_eq hi hj]
  exact ⟨rfl, rfl⟩

/-- C3, witness: the transpose of the first matrix of `main`, and the transpose of a
`(0, 3)` matrix, which has shape `(3, 0)`. -/
theorem C3_witness :
    transpose mat1 = .ok { rows_ := 2, cols_ := 2, data_ := ints [1, 3, 2, 4] } ∧
      transpose empty03 = .ok { rows_ := 3, cols_ := 0, data_ := [] } ∧
      ∃ R, transpose empty03 = .ok R ∧ R.rows = empty03.cols ∧ R.cols = empty03.rows ∧
        ∀ i j, i < empty03.rows → j < empty03.cols →
          R.operator_paren j i = empty03.operator_paren i j ∧
            empty03.operator_paren i j = .ok (empty03.entry i j) :=
  ⟨by decide, by decide, C3_transpose empty03 (by decide)⟩

/-- C4, counterexample: the trace of the valid square matrix `[[2147483647, 0], [0, 1]]`
does not return, the sum `2147483647 + 1` not being an `int`; and the trace of the
constructor-built square `Matrix<int>(4294967296, 4294967296)` does not return, its first
read `matrix(0, 0)` being outside the empty buffer. -/
theorem C4_counterexample :
    matDiagMax.Valid ∧ matDiagMax.rows = matDiagMax.cols ∧
      trace matDiagMax = .error .undefined ∧
      wrapped.rows = wrapped.cols ∧ trace wrapped = .error .undefined :=
  ⟨by decide, rfl, rfl, rfl, rfl⟩

/-- C4, amended: for every valid square `int` matrix `m` none of whose partial diagonal sums
leaves the range of `int`, `trace` returns `m(0,0) + m(1,1) + ... + m(rows-1,rows-1)`,
accumulated in ascending `i` from zero, where `m(i,i)` is the element `operator()` reads;
the trace of a matrix with no rows is `0`. -/
theorem C4_trace (m : Matrix int) (hv : m.Valid) (hsq : m.rows = m.cols)
    (hrange : m.TraceInRange) :
    (∃ t, trace m = .ok t ∧
      t.val = (List.range m.rows).foldl (fun acc i => acc + (m.entry i i).val) 0) ∧
      (∀ i, i < m.rows → m.operator_paren i i = .ok (m.entry i i)) ∧
      (m.rows = 0 → trace m = .ok 0) := by
  obtain ⟨t, ht, hval⟩ := trace_spec hv hsq hrange
  refine ⟨⟨t, ht, hval⟩,
    fun i hi => hv.paren_eq hi (by rw [← show m.rows_ = m.cols_ from hsq]; exact hi), ?_⟩
  intro h0
  have h0' : m.rows_ = 0 := h0
  rw [ht]
  congr 1
  apply int.eq_of_val_eq
  rw [hval, h0']
  rfl

/-- C4, witness: the trace of the first matrix of `main` is `5`, and the trace of a `(0, 0)`
matrix is `0`. -/
theorem C4_witness :
    trace mat1 = .ok (int.ofInt 5) ∧ trace empty00 = .ok 0 ∧
      ((∃ t, trace mat1 = .ok t ∧
        t.val = (List.range mat1.rows).foldl (fun acc i => acc + (mat1.entry i i).val) 0) ∧
        (∀ i, i < mat1.rows → mat1.operator_paren i i = .ok (mat1.entry i i)) ∧
        (mat1.rows = 0 → trace mat1 = .ok 0)) :=
  ⟨by decide, by decide, C4_trace mat1 (by decide) rfl (by decide)⟩

/-- C5: addition and subtraction throw their dimension error exactly when the shapes differ,
multiplication exactly when `a.cols != b.rows`; the exception is the `std::invalid_argument`
of the operation; a returned matrix exists only for compatible shapes and has the shape the
operation defines (nothing is truncated, padded or broadcast); and on valid operands `+`
and `-` return exactly when the shapes agree and no element sum, respectively difference,
leaves the range of `int`. -/
theorem C5_dimension_mismatch (a b : Matrix int) :
    ((∃ e, a.operator_plus b = .error (.thrown e)) ↔ (a.rows ≠ b.rows ∨ a.cols ≠ b.cols)) ∧
    ((∃ e, a.operator_minus b = .error (.thrown e)) ↔ (a.rows ≠ b.rows ∨ a.cols ≠ b.cols)) ∧
    ((∃ e, a.operator_star b = .error (.thrown e)) ↔ a.cols ≠ b.rows) ∧
    (∀ e, a.operator_plus b = .error (.thrown e) →
      e = ⟨.invalid_argument, "Matrix dimensions must agree for addition."⟩) ∧
    (∀ e, a.operator_minus b = .error (.thrown e) →
      e = ⟨.invalid_argument, "Matrix dimensions must agree for subtraction."⟩) ∧
    (∀ e, a.operator_star b = .error (.thrown e) →
      e = ⟨.invalid_argument, "Matrix dimensions must agree for multiplication."⟩) ∧
    (∀ R, a.operator_plus b = .ok R →
      a.rows = b.rows ∧ a.cols = b.cols ∧ R.rows = a.rows ∧ R.cols = a.cols) ∧
    (∀ R, a.operator_minus b = .ok R →
      a.rows = b.rows ∧ a.cols = b.cols ∧ R.rows = a.rows ∧ R.cols = a.cols) ∧
    (∀ R, a.operator_star b = .ok R → a.cols = b.rows ∧ R.rows = a.rows ∧ R.cols = b.cols) ∧
    (a.Valid → b.Valid →
      ((∃ R, a.operator_plus b = .ok R) ↔
        (a.rows = b.rows ∧ a.cols = b.cols ∧ a.PlusInRange b)) ∧
      ((∃ R, a.operator_minus b = .ok R) ↔
        (a.rows = b.rows ∧ a.cols = b.cols ∧ a.MinusInRange b))) := by
  refine ⟨?_, ?_, ?_, ?_, ?_, ?_, ?_, ?_, ?_, ?_⟩
  · constructor
    · rintro ⟨e, he⟩
      exact ((Matrix.operator_plus_thrown_iff a b e).mp he).1
    · intro h
      exact ⟨_, (Matrix.operator_plus_thrown_iff a b _).mpr ⟨h, rfl⟩⟩
  · constructor
    · rintro ⟨e, he⟩
      exact ((Matrix.operator_minus_thrown_iff a b e).mp he).1
    · intro h
      exact ⟨_, (Matrix.operator_minus_thrown_iff a b _).mpr ⟨h, rfl⟩⟩
  · constructor
    · rintro ⟨e, he⟩
      exact ((Matrix.operator_star_thrown_iff a b e).mp he).1
    · intro h
      exact ⟨_, (Matrix.operator_star_thrown_iff a b _).mpr ⟨h, rfl⟩⟩
  · exact fun e he => ((Matrix.operator_plus_thrown_iff a b e).mp he).2
  · exact fun e he => ((Matrix.operator_minus_thrown_iff a b e).mp he).2
  · exact fun e he => ((Matrix.operator_star_thrown_iff a b e).mp he).2
  · intro R h
    have := Matrix.operator_plus_shape a b R h
    exact ⟨this.1, this.2.1, this.2.2.1, this.2.2.2.1⟩
  · intro R h
    have := Matrix.operator_minus_shape a b R h
    exact ⟨this.1, this.2.1, this.2.2.1, this.2.2.2.1⟩
  · intro R h
    have := Matrix.operator_star_shape a b R h
    exact ⟨this.1, this.2.1, this.2.2.1⟩
  · intro ha hb
    exact ⟨ha.allocated.operator_plus_ok_iff hb.allocated,
      ha.allocated.operator_minus_ok_iff hb.allocated⟩

/-- C5, witness: adding a `(2, 3)` matrix to a `(3, 2)` matrix throws, and multiplying a
`(2, 3)` matrix by a `(2, 2)` matrix throws. -/
theorem C5_witness :
    mat23.operator_plus mat32
        = .error (.thrown ⟨.invalid_argument, "Matrix dimensions must agree for addition."⟩) ∧
      mat23.operator_star mat1
        = .error (.thrown ⟨.invalid_argument,
            "Matrix dimensions must agree for multiplication."⟩) ∧
      ((∃ e, mat23.operator_plus mat32 = .error (.thrown e)) ↔
        (mat23.rows ≠ mat32.rows ∨ mat23.cols ≠ mat32.cols)) :=
  ⟨rfl, rfl, (C5_dimension_mismatch mat23 mat32).1⟩

/-- C6, counterexample: the failure of `trace` on a `(2, 3)` matrix and the failure of
`operator+` on a `(2, 3)` and a `(3, 2)` matrix are exceptions of one and the same class,
`std::invalid_argument`: the code has no error kind of its own for a non-square matrix. -/
theorem C6_counterexample :
    thrownClass (trace mat23) = some .invalid_argument ∧
      thrownClass (mat23.operator_plus mat32) = some .invalid_argument ∧
      thrownClass (trace mat23) = thrownClass (mat23.operator_plus mat32) :=
  ⟨rfl, rfl, rfl⟩

/-- C6, amended: `trace` throws exactly when `m.rows != m.cols` (on a valid matrix it
returns exactly when the matrix is square and no partial diagonal sum leaves the range of
`int`); what it throws is a `std::invalid_argument`, the class that `+`, `-` and `*` throw
as well, and it differs from their exceptions only in its message. -/
theorem C6_trace_failure (m : Matrix int) :
    ((∃ e, trace m = .error (.thrown e)) ↔ m.rows ≠ m.cols) ∧
    (∀ e, trace m = .error (.thrown e) →
      e = ⟨.invalid_argument, "Matrix must be square to compute trace."⟩) ∧
    (m.Valid → ((∃ v, trace m = .ok v) ↔ (m.rows = m.cols ∧ m.TraceInRange))) ∧
    (∀ (a b : Matrix int) (c : ExceptionClass),
      (thrownClass (trace m) = some c ∨ thrownClass (a.operator_plus b) = some c ∨
        thrownClass (a.operator_minus b) = some c ∨ thrownClass (a.operator_star b) = some c) →
      c = .invalid_argument) ∧
    ("Matrix must be square to compute trace." ≠ "Matrix dimensions must agree for addition." ∧
      "Matrix must be square to compute trace."
        ≠ "Matrix dimensions must agree for subtraction." ∧
      "Matrix must be square to compute trace."
        ≠ "Matrix dimensions must agree for multiplication.") := by
  have hcls : ∀ {α : Type} (x : Except Abort α) (c : ExceptionClass) (w : String),
      (∀ e, x = .error (.thrown e) → e = ⟨.invalid_argument, w⟩) →
      thrownClass x = some c → c = .invalid_argument := by
    intro α x c w hx hc
    cases x with
    | ok v => cases hc
    | error e =>
      cases e with
      | undefined => cases hc
      | thrown e =>
        have := hx e rfl
        subst this
        cases hc
        rfl
  refine ⟨?_, ?_, ?_, ?_, ?_⟩
  · constructor
    · rintro ⟨e, he⟩
      exact ((trace_thrown_iff m e).mp he).1
    · intro h
      exact ⟨_, (trace_thrown_iff m _).mpr ⟨h, rfl⟩⟩
  · exact fun e he => ((trace_thrown_iff m e).mp he).2
  · intro hv
    constructor
    · rintro ⟨v, hv'⟩
      have := trace_ok_range hv'
      exact ⟨this.1, this.2.1⟩
    · rintro ⟨hsq, hrange⟩
      obtain ⟨t, ht, _⟩ := trace_spec hv hsq hrange
      exact ⟨t, ht⟩
  · intro a b c h
    rcases h with h | h | h | h
    · exact hcls _ c _ (fun e he => ((trace_thrown_iff m e).mp he).2) h
    · exact hcls _ c _ (fun e he => ((Matrix.operator_plus_thrown_iff a b e).mp he).2) h
    · exact hcls _ c _ (fun e he => ((Matrix.operator_minus_thrown_iff a b e).mp he).2) h
    · exact hcls _ c _ (fun e he => ((Matrix.operator_star_thrown_iff a b e).mp he).2) h
  · decide

/-- C6, witness: the trace of a `(2, 3)` matrix throws `std::invalid_argument` with the
message of `trace`. -/
theorem C6_witness :
    trace mat23
        = .error (.thrown ⟨.invalid_argument, "Matrix must be square to compute trace."⟩) ∧
      ((∃ e, trace mat23 = .error (.thrown e)) ↔ mat23.rows ≠ mat23.cols) :=
  ⟨rfl, (C6_trace_failure mat23).1⟩

/-- C7, counterexample: no function recovers the two offending shapes from the error of a
failed addition, because additions that fail on different shapes end with the same error
value (a `(2, 3)` plus a `(3, 2)` matrix, and a `(3, 2)` plus a `(2, 3)` matrix). -/
theorem C7_counterexample :
    ¬ ∃ shapes : Abort → (Nat × Nat) × (Nat × Nat),
      ∀ (a b : Matrix int) (e : Abort), a.operator_plus b = .error e →
        shapes e = ((a.rows, a.cols), (b.rows, b.cols)) := by
  rintro ⟨shapes, h⟩
  have h1 := h mat23 mat32 _ rfl
  have h2 := h mat32 mat23 _ rfl
  rw [h1] at h2
  revert h2
  decide

/-- C7, amended: when `+`, `-` or `*` fails on incompatible operands, the error is a
`std::invalid_argument` whose only content is a fixed message naming the operation; it is
the same value whatever the two offending shapes are. -/
theorem C7_error_value (a b : Matrix int) :
    ((a.rows ≠ b.rows ∨ a.cols ≠ b.cols) →
      a.operator_plus b
          = .error (.thrown ⟨.invalid_argument, "Matrix dimensions must agree for addition."⟩) ∧
        a.operator_minus b
          = .error (.thrown ⟨.invalid_argument,
              "Matrix dimensions must agree for subtraction."⟩)) ∧
      (a.cols ≠ b.rows →
        a.operator_star b
          = .error (.thrown ⟨.invalid_argument,
              "Matrix dimensions must agree for multiplication."⟩)) :=
  ⟨fun h => ⟨(Matrix.operator_plus_thrown_iff a b _).mpr ⟨h, rfl⟩,
      (Matrix.operator_minus_thrown_iff a b _).mpr ⟨h, rfl⟩⟩,
    fun h => (Matrix.operator_star_thrown_iff a b _).mpr ⟨h, rfl⟩⟩

/-- C7, witness: the failing addition and the failing multiplication of the scenarios. -/
theorem C7_witness :
    mat23.operator_plus mat32
        = .error (.thrown ⟨.invalid_argument, "Matrix dimensions must agree for addition."⟩) ∧
      mat23.operator_star mat1
        = .error (.thrown ⟨.invalid_argument,
            "Matrix dimensions must agree for multiplication."⟩) :=
  ⟨((C7_error_value mat23 mat32).1 (by decide)).1, (C7_error_value mat23 mat1).2 (by decide)⟩

/-- C8, counterexample: on the `(2, 2)` matrix `[[1,2],[3,4]]` the access `m(0, 2)`, whose
column is out of bounds and whose row is below `rows - 1`, reports no fault: it reads `3`,
the value stored at `(1, 0)`, and a write through it overwrites that element. -/
theorem C8_counterexample :
    mat1.Valid ∧ mat1.operator_paren 0 2 = .ok (int.ofInt 3) ∧
      mat1.operator_paren 1 0 = .ok (int.ofInt 3) ∧
      mat1.operator_paren_assign 0 2 (int.ofInt 9)
        = .ok { rows_ := 2, cols_ := 2, data_ := ints [1, 2, 9, 4] } :=
  ⟨by decide, by decide, by decide, by decide⟩

/-- C8, amended: element access is not bounds-checked.  On a valid matrix `m(row, col)`
addresses the buffer at the `size_t` offset `(row * cols + col) mod 2 ^ 64`, for every
`row` and `col`: when that offset is below `rows * cols` the access reads, and a write
overwrites, the element at row `offset / cols` and column `offset % cols`, also when
`col >= cols` (for `row + 1 < rows` and `cols <= col < 2 * cols` it is the element
`(row + 1, col - cols)`); when that offset is not below `rows * cols` it is outside the
buffer, the behaviour is undefined and no exception is thrown, as for every access to a
moved-from matrix. -/
theorem C8_unchecked_access (m : Matrix int) (hv : m.Valid) (row col : Nat) :
    m.offset row col = (row * m.cols + col) % SIZE_MOD ∧
    (m.offset row col < m.rows * m.cols →
      m.offset row col / m.cols < m.rows ∧ m.offset row col % m.cols < m.cols ∧
      m.operator_paren row col
        = m.operator_paren (m.offset row col / m.cols) (m.offset row col % m.cols) ∧
      (∃ v, m.operator_paren row col = .ok v) ∧
      ∀ v, m.operator_paren_assign row col v
        = m.operator_paren_assign (m.offset row col / m.cols) (m.offset row col % m.cols) v ∧
          ∃ m', m.operator_paren_assign row col v = .ok m') ∧
    (row + 1 < m.rows → m.cols ≤ col → col < 2 * m.cols →
      m.operator_paren row col = m.operator_paren (row + 1) (col - m.cols) ∧
        ∃ v, m.operator_paren row col = .ok v) ∧
    (m.rows * m.cols ≤ m.offset row col →
      m.operator_paren row col = .error .undefined ∧
        ∀ v, m.operator_paren_assign row col v = .error .undefined) ∧
    ((m.move_construct).2.operator_paren row col = .error .undefined ∧
      ∀ v, (m.move_construct).2.operator_paren_assign row col v = .error .undefined) := by
  obtain ⟨h1, h2, h3, h4⟩ := hv
  have hv : m.Valid := ⟨h1, h2, h3, h4⟩
  refine ⟨rfl, ?_, ?_, ?_, ?_⟩
  · intro hlt
    have hlt' : m.offset row col < m.rows_ * m.cols_ := hlt
    have hcpos : 0 < m.cols_ := by
      rcases Nat.eq_zero_or_pos m.cols_ with h0 | h0
      · rw [h0] at hlt'
        simp at hlt'
      · exact h0
    have hdiv : m.offset row col / m.cols_ < m.rows_ :=
      (Nat.div_lt_iff_lt_mul hcpos).mpr hlt'
    have hmod : m.offset row col % m.cols_ < m.cols_ := Nat.mod_lt _ hcpos
    have hsplit : m.offset row col / m.cols_ * m.cols_ + m.offset row col % m.cols_
        = m.offset row col := Nat.div_add_mod' _ _
    have hoff : m.offset (m.offset row col / m.cols_) (m.offset row col % m.cols_)
        = m.offset row col := by
      rw [hv.offset_eq hdiv hmod, hsplit]
    have hread : m.operator_paren row col
        = m.operator_paren (m.offset row col / m.cols_) (m.offset row col % m.cols_) := by
      simp only [Matrix.operator_paren, hoff]
    have hwrite : ∀ v, m.operator_paren_assign row col v
        = m.operator_paren_assign (m.offset row col / m.cols_)
            (m.offset row col % m.cols_) v := by
      intro v
      simp only [Matrix.operator_paren_assign, hoff]
    refine ⟨hdiv, hmod, hread, ⟨_, hread.trans (hv.paren_eq hdiv hmod)⟩, fun v => ⟨hwrite v, ?_⟩⟩
    obtain ⟨m', hm', _⟩ := hv.paren_assign_spec hdiv hmod v
    exact ⟨m', (hwrite v).trans hm'⟩
  · intro hrow hcol hcol2
    have hrow' : row + 1 < m.rows_ := hrow
    have hcol' : m.cols_ ≤ col := hcol
    have hcol2' : col < 2 * m.cols_ := hcol2
    have hjc : col - m.cols_ < m.cols_ := by omega
    have heq : (row + 1) * m.cols_ + (col - m.cols_) = row * m.cols_ + col := by
      have : (row + 1) * m.cols_ = row * m.cols_ + m.cols_ := by ring
      omega
    have hoff : m.offset (row + 1) (col - m.cols_) = m.offset row col := by
      simp only [Matrix.offset, heq]
    have hread : m.operator_paren row col = m.operator_paren (row + 1) (col - m.cols_) := by
      simp only [Matrix.operator_paren, hoff]
    exact ⟨hread, _, hread.trans (hv.paren_eq hrow' hjc)⟩
  · intro hge
    apply Matrix.access_outside
    rw [h4]
    exact hge
  · apply Matrix.access_outside
    simp [Matrix.move_construct]

/-- C8, witness: on `[[1,2],[3,4]]` the access `m(0, 2)` is the access `m(1, 0)`, and the
access `m(1, 2 ^ 64 - 1)`, whose offset wraps to `1`, is the access `m(0, 1)`. -/
theorem C8_witness :
    (mat1.operator_paren 0 2 = mat1.operator_paren (0 + 1) (2 - mat1.cols) ∧
      ∃ v, mat1.operator_paren 0 2 = .ok v) ∧
    mat1.operator_paren 1 (2 ^ 64 - 1) = .ok (int.ofInt 2) ∧
    mat1.operator_paren 1 (2 ^ 64 - 1)
      = mat1.operator_paren (mat1.offset 1 (2 ^ 64 - 1) / mat1.cols)
          (mat1.offset 1 (2 ^ 64 - 1) % mat1.cols) :=
  ⟨(C8_unchecked_access mat1 (by decide) 0 2).2.2.1 (by decide) (by decide) (by decide),
    by decide,
    ((C8_unchecked_access mat1 (by decide) 1 (2 ^ 64 - 1)).2.1 (by decide)).2.2.1⟩

/-- C9, counterexample: for the valid `(1, 1)` matrices `[[2147483647]]` and `[[1]]` the sum
`a + b` does not return, `2147483647 + 1` not being an `int`, so that `(a + b) - b` has no
value. -/
theorem C9_counterexample :
    matMax.Valid ∧ matOne.Valid ∧ matMax.rows = matOne.rows ∧ matMax.cols = matOne.cols ∧
      matMax.operator_plus matOne = .error .undefined ∧
      (matMax.operator_plus matOne >>= fun s => s.operator_minus matOne)
        = .error .undefined :=
  ⟨by decide, by decide, rfl, rfl, rfl, rfl⟩

/-- C9, amended: for `int` matrices `a`, `b` of the same shape, each holding the buffer of
`rows * cols` elements (a `size_t` product) that every object of the class holds, and such
that no sum of two corresponding buffer elements (on valid operands: no element sum
`a(i,j) + b(i,j)`) leaves the range of `int`, `(a + b) - b` returns, has the shape of `a`,
and equals `a` element by element (it is `a`); on a valid `a` every in-bounds element is
read. -/
theorem C9_add_sub_cancel (a b : Matrix int) (ha : a.Allocated) (hb : b.Allocated)
    (hr : a.rows = b.rows) (hc : a.cols = b.cols) (hrange : a.PlusInRange b) :
    ∃ S D, a.operator_plus b = .ok S ∧ S.operator_minus b = .ok D ∧
      D.rows = a.rows ∧ D.cols = a.cols ∧
      (∀ i j, D.operator_paren i j = a.operator_paren i j) ∧
      D = a ∧
      (a.Valid → ∀ i j, i < a.rows → j < a.cols →
        ∃ v, a.operator_paren i j = .ok v ∧ D.operator_paren i j = .ok v) := by
  have hr' : a.rows_ = b.rows_ := hr
  have hc' : a.cols_ = b.cols_ := hc
  have hlen : a.data_.length = b.data_.length := by
    unfold Matrix.Allocated at ha hb
    rw [ha, hb, hr', hc']
  have hS : (Matrix.mk a.rows_ a.cols_
      (List.zipWith (fun x y => int.ofInt (x.val + y.val)) a.data_ b.data_)).Allocated := by
    unfold Matrix.Allocated at ha ⊢
    simp [← ha, hlen]
  have hD : (Matrix.mk a.rows_ a.cols_
      (List.zipWith (fun x y => int.ofInt (x.val + y.val)) a.data_ b.data_)
      ).operator_minus b = .ok a := by
    rw [hS.operator_minus_eq hb hr' hc' (Matrix.minusInRange_of_sum a b hrange)]
    simp only [zipWith_add_sub_cancel a.data_ b.data_ hlen hrange]
  refine ⟨_, a, ha.operator_plus_eq hb hr' hc' hrange, hD, rfl, rfl, fun _ _ => rfl, rfl, ?_⟩
  intro hv i j hi hj
  exact ⟨_, hv.paren_eq hi hj, hv.paren_eq hi hj⟩

/-- C9, witness: `(mat1 + mat2) - mat2` is `mat1`. -/
theorem C9_witness :
    (mat1.operator_plus mat2 >>= fun s => s.operator_minus mat2) = .ok mat1 ∧
    ∃ S D, mat1.operator_plus mat2 = .ok S ∧ S.operator_minus mat2 = .ok D ∧
      D.rows = mat1.rows ∧ D.cols = mat1.cols ∧
      (∀ i j, D.operator_paren i j = mat1.operator_paren i j) ∧
      D = mat1 ∧
      (mat1.Valid → ∀ i j, i < mat1.rows → j < mat1.cols →
        ∃ v, mat1.operator_paren i j = .ok v ∧ D.operator_paren i j = .ok v) :=
  ⟨by decide, C9_add_sub_cancel mat1 mat2 (by decide) (by decide) rfl rfl (by decide)⟩

/-- C10, counterexample: for the valid `(1, 1)` matrices `[[2147483647]]` and `[[1]]`
neither `a + b` nor `b + a` returns a matrix, `2147483647 + 1` not being an `int`: there
are no two results to have the same shape and the same elements. -/
theorem C10_counterexample :
    matMax.Valid ∧ matOne.Valid ∧ matMax.rows = matOne.rows ∧ matMax.cols = matOne.cols ∧
      matMax.operator_plus matOne = .error .undefined ∧
      matOne.operator_plus matMax = .error .undefined :=
  ⟨by decide, by decide, rfl, rfl, rfl, rfl⟩

/-- C10, amended: for `int` matrices `a`, `b` of the same shape, each holding the buffer of
`rows * cols` elements (a `size_t` product) that every object of the class holds, and such
that no sum of two corresponding buffer elements (on valid operands: no element sum
`a(i,j) + b(i,j)`) leaves the range of `int`, `a + b` and `b + a` return matrices of the
same shape that are equal element by element (on valid operands the element `(i, j)` of
both is `a(i,j) + b(i,j)`); for such operands of any shapes `a + b` fails exactly when
`b + a` fails, and both fail when the shapes differ. -/
theorem C10_add_comm (a b : Matrix int) (ha : a.Allocated) (hb : b.Allocated) :
    (a.rows = b.rows → a.cols = b.cols → a.PlusInRange b →
      ∃ R1 R2, a.operator_plus b = .ok R1 ∧ b.operator_plus a = .ok R2 ∧
        R1.rows = R2.rows ∧ R1.cols = R2.cols ∧
        (∀ i j, R1.operator_paren i j = R2.operator_paren i j) ∧
        R1 = R2 ∧
        (a.Valid → b.Valid → ∀ i j, i < a.rows → j < a.cols →
          ∃ v, R1.operator_paren i j = .ok v ∧ R2.operator_paren i j = .ok v ∧
            v.val = (a.entry i j).val + (b.entry i j).val)) ∧
    ((∃ e, a.operator_plus b = .error e) ↔ (∃ e, b.operator_plus a = .error e)) ∧
    ((a.rows ≠ b.rows ∨ a.cols ≠ b.cols) →
      (∃ e, a.operator_plus b = .error e) ∧ (∃ e, b.operator_plus a = .error e)) := by
  refine ⟨?_, ?_, ?_⟩
  · intro hr hc hrange
    have hr' : a.rows_ = b.rows_ := hr
    have hc' : a.cols_ = b.cols_ := hc
    have h1 := ha.operator_plus_eq hb hr' hc' hrange
    have h2 := hb.operator_plus_eq ha hr'.symm hc'.symm ((Matrix.plusInRange_comm a b).mp hrange)
    have heq : (Matrix.mk a.rows_ a.cols_
          (List.zipWith (fun x y => int.ofInt (x.val + y.val)) a.data_ b.data_))
        = Matrix.mk b.rows_ b.cols_
          (List.zipWith (fun x y => int.ofInt (x.val + y.val)) b.data_ a.data_) := by
      rw [zipWith_add_comm a.data_ b.data_, hr', hc']
    refine ⟨_, _, h1, h2, hr', hc', fun i j => by rw [heq], heq, ?_⟩
    intro hva hvb i j hi hj
    have hi' : i < a.rows_ := hi
    have hj' : j < a.cols_ := hj
    have hsum := (Matrix.plusInRange_iff a b).mp hrange (i * a.cols_ + j) _ _
      (hva.getElem?_eq hi' hj') (by rw [hc']; exact hvb.getElem?_eq (hr' ▸ hi') (hc' ▸ hj'))
    refine ⟨_, hva.zipWith_paren hvb hr' hc' _ hi' hj', ?_, int.ofInt_val hsum⟩
    rw [← heq]
    exact hva.zipWith_paren hvb hr' hc' _ hi' hj'
  · rw [error_iff_not_ok, error_iff_not_ok, ha.operator_plus_ok_iff hb,
      hb.operator_plus_ok_iff ha, Matrix.plusInRange_comm a b]
    constructor
    · intro h hcon
      exact h ⟨hcon.1.symm, hcon.2.1.symm, hcon.2.2⟩
    · intro h hcon
      exact h ⟨hcon.1.symm, hcon.2.1.symm, hcon.2.2⟩
  · intro h
    refine ⟨⟨_, (Matrix.operator_plus_thrown_iff a b _).mpr ⟨h, rfl⟩⟩,
      ⟨_, (Matrix.operator_plus_thrown_iff b a _).mpr ⟨?_, rfl⟩⟩⟩
    rcases h with h | h
    · exact Or.inl (fun h' => h h'.symm)
    · exact Or.inr (fun h' => h h'.symm)

/-- C10, witness: `mat1 + mat2` and `mat2 + mat1` are the same matrix, and a `(2, 3)` and a
`(3, 2)` matrix cannot be added in either order. -/
theorem C10_witness :
    mat1.operator_plus mat2 = mat2.operator_plus mat1 ∧
      ((∃ e, mat23.operator_plus mat32 = .error e) ∧
        (∃ e, mat32.operator_plus mat23 = .error e)) :=
  ⟨by decide, (C10_add_comm mat23 mat32 (by decide) (by decide)).2.2 (by decide)⟩

/-- C11, counterexample: on the constructor-built `Matrix<int>(4294967296, 4294967296)`,
whose buffer has `0` elements, `transpose` does not return, and so neither does
`transpose(transpose(m))`. -/
theorem C11_counterexample :
    0 < wrapped.rows ∧ 0 < wrapped.cols ∧ wrapped.data_ = [] ∧
      transpose wrapped = .error .undefined ∧
      (transpose wrapped >>= transpose) = .error .undefined :=
  ⟨by decide, by decide, rfl, rfl, rfl⟩

/-- C11, amended: for every valid matrix `m` (its buffer holds `rows * cols < 2 ^ 64`
elements), of any shape, zero rows or zero columns included, `transpose(transpose(m))`
returns, has the shape of `m`, and equals `m` element by element (it is `m`). -/
theorem C11_transpose_involution (m : Matrix int) (hv : m.Valid) :
    ∃ R1 R2, transpose m = .ok R1 ∧ transpose R1 = .ok R2 ∧
      R2.rows = m.rows ∧ R2.cols = m.cols ∧
      (∀ i j, i < m.rows → j < m.cols →
        R2.operator_paren i j = m.operator_paren i j ∧ ∃ v, m.operator_paren i j = .ok v) ∧
      R2 = m := by
  obtain ⟨R1, hrun1, hv1, hr1, hc1, hall1⟩ := transpose_spec hv
  obtain ⟨R2, hrun2, hv2, hr2, hc2, hall2⟩ := transpose_spec hv1
  have hr : R2.rows_ = m.rows_ := hr2.trans hc1
  have hc : R2.cols_ = m.cols_ := hc2.trans hr1
  have hent : ∀ i j, i < m.rows_ → j < m.cols_ → R2.entry i j = m.entry i j := by
    intro i j hi hj
    rw [hall2 j i (by rw [hr1]; exact hj) (by rw [hc1]; exact hi), hall1 i j hi hj]
  refine ⟨R1, R2, hrun1, hrun2, hr, hc, ?_, ?_⟩
  · intro i j hi hj
    rw [hv2.paren_eq (by rw [hr]; exact hi) (by rw [hc]; exact hj), hent i j hi hj,
      hv.paren_eq hi hj]
    exact ⟨rfl, _, rfl⟩
  · exact hv2.ext hv hr hc (fun i j hi hj => hent i j (hr ▸ hi) (hc ▸ hj))

/-- C11, witness: transposing a `(2, 3)` matrix twice gives it back, and so does transposing
a `(0, 3)` matrix twice. -/
theorem C11_witness :
    (transpose mat23 >>= transpose) = .ok mat23 ∧
      (transpose empty03 >>= transpose) = .ok empty03 ∧
      ∃ R1 R2, transpose mat23 = .ok R1 ∧ transpose R1 = .ok R2 ∧
        R2.rows = mat23.rows ∧ R2.cols = mat23.cols ∧
        (∀ i j, i < mat23.rows → j < mat23.cols →
          R2.operator_paren i j = mat23.operator_paren i j ∧
            ∃ v, mat23.operator_paren i j = .ok v) ∧
        R2 = mat23 :=
  ⟨by decide, by decide, C11_transpose_involution mat23 (by decide)⟩

/-- C12, counterexample: for the valid square matrix `[[2147483647, 0], [0, 1]]` neither
`trace(transpose(m))` nor `trace(m)` returns, the sum `2147483647 + 1` not being an `int`;
and for the constructor-built square `Matrix<int>(4294967296, 4294967296)` `transpose`
does not return. -/
theorem C12_counterexample :
    matDiagMax.Valid ∧ matDiagMax.rows = matDiagMax.cols ∧
      (transpose matDiagMax >>= trace) = .error .undefined ∧
      trace matDiagMax = .error .undefined ∧
      wrapped.rows = wrapped.cols ∧ (transpose wrapped >>= trace) = .error .undefined :=
  ⟨by decide, rfl, rfl, rfl, rfl, rfl⟩

/-- C12, amended: for every valid square `int` matrix `m` none of whose partial diagonal
sums leaves the range of `int`, `trace(transpose(m))` returns and equals `trace(m)`. -/
theorem C12_trace_transpose (m : Matrix int) (hv : m.Valid) (hsq : m.rows = m.cols)
    (hrange : m.TraceInRange) :
    ∃ R t, transpose m = .ok R ∧ trace R = .ok t ∧ trace m = .ok t := by
  have hsq' : m.rows_ = m.cols_ := hsq
  obtain ⟨R, hrun, hvR, hr, hc, hall⟩ := transpose_spec hv
  have hsqR : R.rows_ = R.cols_ := by rw [hr, hc, hsq']
  have hrows : R.rows_ = m.rows_ := by rw [hr, hsq']
  have hdiag : ∀ n, n ≤ m.rows_ → R.diagonalSum n = m.diagonalSum n := by
    intro n hn
    exact foldl_range_congr (fun i => (R.entry i i).val) (fun i => (m.entry i i).val) n
      (fun k hk => by
        show (R.entry k k).val = (m.entry k k).val
        rw [hall k k (by omega) (by rw [← hsq']; omega)])
  have hrangeR : R.TraceInRange := by
    intro i hi
    have hi' : i < m.rows_ := by rw [← hrows]; exact hi
    rw [hdiag (i + 1) (by omega)]
    exact hrange i hi'
  obtain ⟨t, ht, hval⟩ := trace_spec hvR hsqR hrangeR
  obtain ⟨t', ht', hval'⟩ := trace_spec hv hsq' hrange
  have : t = t' := by
    apply int.eq_of_val_eq
    rw [hval, hval', hrows, hdiag m.rows_ (Nat.le_refl _)]
  exact ⟨R, t, hrun, ht, this ▸ ht'⟩

/-- C12, witness: the trace of the transpose of `[[1,2],[3,4]]` is `5`, its trace. -/
theorem C12_witness :
    (transpose mat1 >>= trace) = .ok (int.ofInt 5) ∧ trace mat1 = .ok (int.ofInt 5) ∧
      ∃ R t, transpose mat1 = .ok R ∧ trace R = .ok t ∧ trace mat1 = .ok t :=
  ⟨by decide, by decide, C12_trace_transpose mat1 (by decide) rfl (by decide)⟩

/-- C13: for every valid integer matrix `m` of shape `(r, c)` and valid square matrices
`I_r`, `I_c` of sizes `r` and `c` that hold `1` on the diagonal and `0` elsewhere,
`I_r * m` and `m * I_c` return, have shape `(r, c)`, and equal `m` element by element. -/
theorem C13_identity (m I_r I_c : Matrix int) (hv : m.Valid) (hr : I_r.IsIdentity m.rows)
    (hc : I_c.IsIdentity m.cols) :
    (∃ R, I_r.operator_star m = .ok R ∧ R.rows = m.rows ∧ R.cols = m.cols ∧
      ∀ i j, i < m.rows → j < m.cols →
        R.operator_paren i j = m.operator_paren i j ∧ ∃ v, m.operator_paren i j = .ok v) ∧
    (∃ R, m.operator_star I_c = .ok R ∧ R.rows = m.rows ∧ R.cols = m.cols ∧
      ∀ i j, i < m.rows → j < m.cols →
        R.operator_paren i j = m.operator_paren i j ∧ ∃ v, m.operator_paren i j = .ok v) :=
  ⟨⟨m, identity_star hr hv, rfl, rfl, fun _ _ hi hj => ⟨rfl, _, hv.paren_eq hi hj⟩⟩,
    ⟨m, star_identity hc hv, rfl, rfl, fun _ _ hi hj => ⟨rfl, _, hv.paren_eq hi hj⟩⟩⟩

/-- C13, witness: the `(2, 3)` matrix `[[1,2,3],[4,5,6]]` multiplied by the identity of
size `2` on the left and by the identity of size `3` on the right. -/
theorem C13_witness :
    identity2.operator_star mat23 = .ok mat23 ∧ mat23.operator_star identity3 = .ok mat23 ∧
      ((∃ R, identity2.operator_star mat23 = .ok R ∧ R.rows = mat23.rows ∧
          R.cols = mat23.cols ∧
          ∀ i j, i < mat23.rows → j < mat23.cols →
            R.operator_paren i j = mat23.operator_paren i j ∧
              ∃ v, mat23.operator_paren i j = .ok v) ∧
        (∃ R, mat23.operator_star identity3 = .ok R ∧ R.rows = mat23.rows ∧
          R.cols = mat23.cols ∧
          ∀ i j, i < mat23.rows → j < mat23.cols →
            R.operator_paren i j = mat23.operator_paren i j ∧
              ∃ v, mat23.operator_paren i j = .ok v)) :=
  ⟨by decide, by decide,
    C13_identity mat23 identity2 identity3 (by decide)
      (by unfold Matrix.IsIdentity; decide) (by unfold Matrix.IsIdentity; decide)⟩

/-- C14: move construction from `s`, and move assignment from the object at address `sa`
into a different object at address `d`, leave the destination with exactly the shape and the
elements the source had before, and leave the source with `rows == 0`, `cols == 0` and an
empty buffer; a move assignment changes no third object. -/
theorem C14_move (s : Matrix int) (mem : Memory int) (d sa : Nat) (h : d ≠ sa) :
    ((s.move_construct).1.rows = s.rows ∧ (s.move_construct).1.cols = s.cols ∧
      (∀ i j, (s.move_construct).1.operator_paren i j = s.operator_paren i j) ∧
      (s.move_construct).1 = s ∧
      (s.move_construct).2.rows = 0 ∧ (s.move_construct).2.cols = 0 ∧
      (s.move_construct).2.data_ = []) ∧
    ((Matrix.operator_assign_move mem d sa d).rows = (mem sa).rows ∧
      (Matrix.operator_assign_move mem d sa d).cols = (mem sa).cols ∧
      (∀ i j, (Matrix.operator_assign_move mem d sa d).operator_paren i j
        = (mem sa).operator_paren i j) ∧
      Matrix.operator_assign_move mem d sa d = mem sa ∧
      (Matrix.operator_assign_move mem d sa sa).rows = 0 ∧
      (Matrix.operator_assign_move mem d sa sa).cols = 0 ∧
      (Matrix.operator_assign_move mem d sa sa).data_ = [] ∧
      ∀ q, q ≠ d → q ≠ sa → Matrix.operator_assign_move mem d sa q = mem q) := by
  obtain ⟨h1, h2, h3⟩ := Matrix.operator_assign_move_spec mem d sa h
  refine ⟨⟨rfl, rfl, fun _ _ => rfl, rfl, rfl, rfl, rfl⟩, ?_⟩
  rw [h1, h2]
  exact ⟨rfl, rfl, fun _ _ => rfl, rfl, rfl, rfl, rfl, h3⟩

/-- C14, witness: in a memory holding `[[1,2],[3,4]]` at address `0` and a `(2, 3)` matrix at
address `1`, move-assigning the second to the first. -/
theorem C14_witness :
    Matrix.operator_assign_move memory0 0 1 0 = mat23 ∧
      Matrix.operator_assign_move memory0 0 1 1 = { rows_ := 0, cols_ := 0, data_ := [] } ∧
      (mat1.move_construct).1 = mat1 ∧
      (mat1.move_construct).2 = { rows_ := 0, cols_ := 0, data_ := [] } :=
  ⟨(C14_move mat1 memory0 0 1 (by decide)).2.2.2.2.1,
    rfl, (C14_move mat1 memory0 0 1 (by decide)).1.2.2.2.1, rfl⟩

/-- C15, counterexample: `Matrix<int>(4294967296, 4294967296)` reports `2 ^ 32` rows and
columns, but its buffer has `2 ^ 64 mod 2 ^ 64 = 0` elements, so the in-bounds element
`(0, 0)` is not a zero that can be read: the access is outside the buffer. -/
theorem C15_counterexample :
    wrapped.rows = 2 ^ 32 ∧ wrapped.cols = 2 ^ 32 ∧ wrapped.data_ = [] ∧
      wrapped.operator_paren 0 0 = .error .undefined :=
  ⟨rfl, rfl, rfl, rfl⟩

/-- C15, amended: for `size_t` values `rows` and `cols` whose product is below `2 ^ 64`,
the constructor yields a matrix with `rows() == rows` and `cols() == cols` whose every
in-bounds element reads as zero; whatever the product, every element of the allocated
buffer is zero. -/
theorem C15_constructor (rows cols : Nat) (hr : rows < SIZE_MOD) (hc : cols < SIZE_MOD)
    (h : rows * cols < SIZE_MOD) :
    (Matrix.new rows cols : Matrix int).rows = rows ∧
      (Matrix.new rows cols : Matrix int).cols = cols ∧
      (∀ i j, i < rows → j < cols →
        (Matrix.new rows cols : Matrix int).operator_paren i j = .ok 0) ∧
      ∀ (r c : Nat) (x : int), x ∈ (Matrix.new r c : Matrix int).data_ → x = 0 := by
  refine ⟨rfl, rfl, ?_, ?_⟩
  · intro i j hi hj
    have hv : (Matrix.new rows cols : Matrix int).Valid := Matrix.Valid.new hr hc h
    rw [hv.paren_eq hi hj, Matrix.new_entry]
  · intro r c x hx
    simp only [Matrix.new, List.mem_replicate] at hx
    exact hx.2

/-- C15, witness: `Matrix<int>(2, 3)` is a `(2, 3)` matrix of zeros. -/
theorem C15_witness :
    (Matrix.new 2 3 : Matrix int)
        = { rows_ := 2, cols_ := 3, data_ := ints [0, 0, 0, 0, 0, 0] } ∧
      ((Matrix.new 2 3 : Matrix int).rows = 2 ∧ (Matrix.new 2 3 : Matrix int).cols = 3 ∧
        (∀ i j, i < 2 → j < 3 → (Matrix.new 2 3 : Matrix int).operator_paren i j = .ok 0) ∧
        ∀ (r c : Nat) (x : int), x ∈ (Matrix.new r c : Matrix int).data_ → x = 0) :=
  ⟨by decide, C15_constructor 2 3 (by decide) (by decide) (by decide)⟩

/-- C16, counterexample: the matrix built by `Matrix<int>(4294967296, 4294967296)` has a
buffer of `0` elements while `rows * cols` is `2 ^ 64`: the constructor does not establish
`buffer.length == rows * cols`. -/
theorem C16_counterexample :
    wrapped.data_.length = 0 ∧ wrapped.rows * wrapped.cols = 2 ^ 64 ∧
      wrapped.data_.length ≠ wrapped.rows * wrapped.cols :=
  ⟨rfl, rfl, by decide⟩

/-- C16, amended: `buffer.length == rows * cols` holds for the result of the constructor
when `rows * cols < 2 ^ 64` (in general the buffer has `rows * cols mod 2 ^ 64` elements);
it is preserved by every element write that returns; after a move construction or a move
assignment it holds for the destination and for the reset source when it held before; it
holds for every matrix that `+`, `-`, `*` and `transpose` return on valid operands; and a
matrix satisfying it with `rows == 0` or `cols == 0` has an empty buffer. -/
theorem C16_buffer_invariant :
    (∀ rows cols, rows * cols < SIZE_MOD →
      (Matrix.new rows cols : Matrix int).data_.length
        = (Matrix.new rows cols : Matrix int).rows * (Matrix.new rows cols : Matrix int).cols) ∧
    (∀ rows cols,
      (Matrix.new rows cols : Matrix int).data_.length = (rows * cols) % SIZE_MOD) ∧
    (∀ (m m' : Matrix int) i j v, m.operator_paren_assign i j v = .ok m' →
      m.data_.length = m.rows * m.cols → m'.data_.length = m'.rows * m'.cols) ∧
    (∀ s : Matrix int, s.data_.length = s.rows * s.cols →
      (s.move_construct).1.data_.length = (s.move_construct).1.rows * (s.move_construct).1.cols ∧
      (s.move_construct).2.data_.length
        = (s.move_construct).2.rows * (s.move_construct).2.cols) ∧
    (∀ (mem : Memory int) d sa, (mem d).data_.length = (mem d).rows * (mem d).cols →
      (mem sa).data_.length = (mem sa).rows * (mem sa).cols →
      (Matrix.operator_assign_move mem d sa d).data_.length
        = (Matrix.operator_assign_move mem d sa d).rows
          * (Matrix.operator_assign_move mem d sa d).cols ∧
      (Matrix.operator_assign_move mem d sa sa).data_.length
        = (Matrix.operator_assign_move mem d sa sa).rows
          * (Matrix.operator_assign_move mem d sa sa).cols) ∧
    (∀ a b R : Matrix int, a.Valid → b.Valid →
      (a.operator_plus b = .ok R ∨ a.operator_minus b = .ok R ∨ a.operator_star b = .ok R) →
      R.Valid ∧ R.data_.length = R.rows * R.cols) ∧
    (∀ m R : Matrix int, m.Valid → transpose m = .ok R →
      R.Valid ∧ R.data_.length = R.rows * R.cols) ∧
    (∀ m : Matrix int, m.data_.length = m.rows * m.cols → (m.rows = 0 ∨ m.cols = 0) →
      m.data_ = []) := by
  refine ⟨?_, ?_, ?_, ?_, ?_, ?_, ?_, ?_⟩
  · intro rows cols h
    simp [Matrix.new, Matrix.rows, Matrix.cols, Nat.mod_eq_of_lt h]
  · intro rows cols
    simp [Matrix.new]
  · intro m m' i j v hrun hinv
    have h1 := Matrix.operator_paren_assign_shape m m' i j v hrun
    have h2 := Matrix.operator_paren_assign_length m m' i j v hrun
    show m'.data_.length = m'.rows_ * m'.cols_
    rw [h2.2, h1.1, h1.2]
    exact hinv
  · intro s hs
    exact ⟨hs, rfl⟩
  · intro mem d sa hd hsa
    by_cases h : d = sa
    · subst h
      have : Matrix.operator_assign_move mem d d = mem := by
        unfold Matrix.operator_assign_move
        rw [if_neg (by simp)]
      rw [this]
      exact ⟨hd, hd⟩
    · obtain ⟨h1, h2, _⟩ := Matrix.operator_assign_move_spec mem d sa h
      rw [h1, h2]
      exact ⟨hsa, rfl⟩
  · intro a b R ha hb hrun
    have hfrom : ∀ (S : Matrix int), S.rows_ = a.rows_ → S.cols_ = a.cols_ → S.Allocated →
        S.Valid := by
      intro S hr hc hlen
      unfold Matrix.Allocated at hlen
      rw [hr, hc, Nat.mod_eq_of_lt ha.2.2.1] at hlen
      exact ⟨by rw [hr]; exact ha.1, by rw [hc]; exact ha.2.1,
        by rw [hr, hc]; exact ha.2.2.1, by rw [hlen, hr, hc]⟩
    have hv : R.Valid := by
      rcases hrun with h | h | h
      · obtain ⟨_, _, hr, hc, hlen⟩ := Matrix.operator_plus_shape a b R h
        exact hfrom R hr hc hlen
      · obtain ⟨_, _, hr, hc, hlen⟩ := Matrix.operator_minus_shape a b R h
        exact hfrom R hr hc hlen
      · exact operator_star_valid ha hb R h
    exact ⟨hv, hv.2.2.2⟩
  · intro m R hm hrun
    obtain ⟨R', hrun', hv, _⟩ := transpose_spec hm
    rw [hrun'] at hrun
    cases hrun
    exact ⟨hv, hv.2.2.2⟩
  · intro m hinv h0
    have hinv' : m.data_.length = m.rows_ * m.cols_ := hinv
    apply List.eq_nil_of_length_eq_zero
    rw [hinv']
    rcases h0 with h | h
    · have h' : m.rows_ = 0 := h
      rw [h', Nat.zero_mul]
    · have h' : m.cols_ = 0 := h
      rw [h', Nat.mul_zero]

/-- C16, witness: `Matrix<int>(2, 3)` has a buffer of `6` elements, and a `(0, 3)` matrix has
an empty buffer. -/
theorem C16_witness :
    (Matrix.new 2 3 : Matrix int).data_.length
        = (Matrix.new 2 3 : Matrix int).rows * (Matrix.new 2 3 : Matrix int).cols ∧
      empty03.data_ = [] :=
  ⟨C16_buffer_invariant.1 2 3 (by decide), C16_buffer_invariant.2.2.2.2.2.2.2 empty03 rfl
    (Or.inl rfl)⟩

/-- C17: move-assigning an object to itself changes nothing: the guard `this != &other`
skips the body, so the object keeps its rows, its columns and its elements, and no other
object changes. -/
theorem C17_self_move (mem : Memory int) (p : Nat) :
    Matrix.operator_assign_move mem p p = mem ∧
      (Matrix.operator_assign_move mem p p p).rows = (mem p).rows ∧
      (Matrix.operator_assign_move mem p p p).cols = (mem p).cols ∧
      (Matrix.operator_assign_move mem p p p).data_ = (mem p).data_ ∧
      ∀ i j, (Matrix.operator_assign_move mem p p p).operator_paren i j
        = (mem p).operator_paren i j := by
  have h : Matrix.operator_assign_move mem p p = mem := by
    unfold Matrix.operator_assign_move
    rw [if_neg (by simp)]
  rw [h]
  exact ⟨rfl, rfl, rfl, rfl, fun _ _ => rfl⟩

/-- C17, witness: move-assigning `[[1,2],[3,4]]` at address `0` to itself leaves it as it
is, and not a `(0, 0)` matrix. -/
theorem C17_witness :
    Matrix.operator_assign_move memory0 0 0 0 = mat1 ∧
      Matrix.operator_assign_move memory0 0 0 0 ≠ { rows_ := 0, cols_ := 0, data_ := [] } ∧
      Matrix.operator_assign_move memory0 0 0 = memory0 :=
  ⟨rfl, by decide, (C17_self_move memory0 0).1⟩

/-- C18, counterexample: for `Matrix<int>(4294967296, 4294967296)` and the in-bounds index
pair `(0, 0)`, the offset `0 * cols + 0 = 0` is not below the length of the allocated
buffer, which is `2 ^ 64 mod 2 ^ 64 = 0`. -/
theorem C18_counterexample :
    0 < wrapped.rows ∧ 0 < wrapped.cols ∧ wrapped.offset 0 0 = 0 ∧
      wrapped.data_.length = 0 ∧ ¬ (wrapped.offset 0 0 < wrapped.data_.length) :=
  ⟨by decide, by decide, rfl, rfl, by decide⟩

/-- C18, amended: for a matrix built by `Matrix(rows, cols)` with `rows * cols < 2 ^ 64` and
every index pair with `row < rows` and `col < cols`, the offset computed by `operator()`
is `row * cols + col` (no wrap) and is strictly below the length of the allocated buffer. -/
theorem C18_offset_in_buffer (rows cols row col : Nat) (h : rows * cols < SIZE_MOD)
    (hrow : row < rows) (hcol : col < cols) :
    (Matrix.new rows cols : Matrix int).offset row col = row * cols + col ∧
      (Matrix.new rows cols : Matrix int).offset row col
        < (Matrix.new rows cols : Matrix int).data_.length := by
  have hlt := offset_lt hrow hcol
  have hoff : (Matrix.new rows cols : Matrix int).offset row col = row * cols + col := by
    simp only [Matrix.offset, Matrix.new]
    exact Nat.mod_eq_of_lt (by omega)
  refine ⟨hoff, ?_⟩
  rw [hoff]
  simp only [Matrix.new, List.length_replicate, Nat.mod_eq_of_lt h]
  exact hlt

/-- C18, witness: in `Matrix<int>(2, 3)` the offset of `(1, 2)` is `5`, below the length
`6`. -/
theorem C18_witness :
    (Matrix.new 2 3 : Matrix int).offset 1 2 = 1 * 3 + 2 ∧
      (Matrix.new 2 3 : Matrix int).offset 1 2 < (Matrix.new 2 3 : Matrix int).data_.length :=
  C18_offset_in_buffer 2 3 1 2 (by decide) (by decide) (by decide)

/-- C19, counterexample: on the constructor-built `Matrix<int>(4294967296, 4294967296)`,
whose buffer has `0` elements, the write `m(0, 0) = 7` at the in-bounds position `(0, 0)`
is outside the buffer: it does not return, and `m(0, 0)` does not read `7`. -/
theorem C19_counterexample :
    0 < wrapped.rows ∧ 0 < wrapped.cols ∧ wrapped.data_ = [] ∧
      wrapped.operator_paren_assign 0 0 (int.ofInt 7) = .error .undefined ∧
      wrapped.operator_paren 0 0 = .error .undefined :=
  ⟨by decide, by decide, rfl, rfl, rfl⟩

/-- C19, amended: on a valid matrix (its buffer holds `rows * cols < 2 ^ 64` elements), a
write `m(i, j) = v` at an in-bounds position returns; after it `m(i, j)` reads `v`, every
other in-bounds element reads as before, `rows()` and `cols()` are unchanged, and the
offset `i * cols + j` is injective on in-bounds pairs. -/
theorem C19_write_frame (m : Matrix int) (hv : m.Valid) (i j : Nat) (hi : i < m.rows)
    (hj : j < m.cols) (v : int) :
    (∃ m', m.operator_paren_assign i j v = .ok m' ∧ m'.operator_paren i j = .ok v ∧
      (∀ i' j', i' < m.rows → j' < m.cols → (i' ≠ i ∨ j' ≠ j) →
        m'.operator_paren i' j' = m.operator_paren i' j') ∧
      m'.rows = m.rows ∧ m'.cols = m.cols) ∧
    ∀ i' j', i' < m.rows → j' < m.cols → m.offset i' j' = m.offset i j →
      i' = i ∧ j' = j := by
  obtain ⟨m', hrun, hv', hr', hc', hcell, hframe⟩ := hv.paren_assign_spec hi hj v
  refine ⟨⟨m', hrun, ?_, ?_, hr', hc'⟩, ?_⟩
  · rw [hv'.paren_eq (by rw [hr']; exact hi) (by rw [hc']; exact hj), hcell]
  · intro i' j' hi' hj' hne
    rw [hv'.paren_eq (by rw [hr']; exact hi') (by rw [hc']; exact hj'), hv.paren_eq hi' hj',
      hframe i' j' hi' hj' hne]
  · intro i' j' hi' hj' hoff
    rw [hv.offset_eq hi' hj', hv.offset_eq hi hj] at hoff
    exact offset_inj hj' hj hoff

/-- C19, witness: writing `9` to the element `(0, 1)` of `[[1,2],[3,4]]`. -/
theorem C19_witness :
    mat1.operator_paren_assign 0 1 (int.ofInt 9)
        = .ok { rows_ := 2, cols_ := 2, data_ := ints [1, 9, 3, 4] } ∧
      ((∃ m', mat1.operator_paren_assign 0 1 (int.ofInt 9) = .ok m' ∧
        m'.operator_paren 0 1 = .ok (int.ofInt 9) ∧
        (∀ i' j', i' < mat1.rows → j' < mat1.cols → (i' ≠ 0 ∨ j' ≠ 1) →
          m'.operator_paren i' j' = mat1.operator_paren i' j') ∧
        m'.rows = mat1.rows ∧ m'.cols = mat1.cols) ∧
      ∀ i' j', i' < mat1.rows → j' < mat1.cols → mat1.offset i' j' = mat1.offset 0 1 →
        i' = 0 ∧ j' = 1) :=
  ⟨by decide, C19_write_frame mat1 (by decide) 0 1 (by decide) (by decide) (int.ofInt 9)⟩

/-- C20, counterexample: for the valid matrices `tall` (shape `(2 ^ 32, 1)`) and `wide` (shape
`(1, 2 ^ 32)`), with `tall.cols == wide.rows`, neither `transpose(tall * wide)` nor
`transpose(wide) * transpose(tall)` returns: both products have `2 ^ 64` elements, a
count that wraps to `0`.  And for `a = b = [[65536]]` neither side returns, the product
`65536 * 65536` not being an `int`. -/
theorem C20_counterexample :
    tall.Valid ∧ wide.Valid ∧ tall.cols = wide.rows ∧
      (tall.operator_star wide >>= transpose) = .error .undefined ∧
      (transpose wide >>= fun bt => transpose tall >>= fun at_ => bt.operator_star at_)
        = .error .undefined ∧
      mat65536.Valid ∧ mat65536.cols = mat65536.rows ∧
      (mat65536.operator_star mat65536 >>= transpose) = .error .undefined ∧
      (transpose mat65536 >>= fun bt =>
        transpose mat65536 >>= fun at_ => bt.operator_star at_) = .error .undefined := by
  have hrows : tall.rows_ = 2 ^ 32 := rfl
  have hcols : wide.cols_ = 2 ^ 32 := rfl
  have hprod : tall.operator_star wide = .error .undefined := by
    apply operator_star_wrapped tall wide rfl
    · rw [hrows]
      norm_num
    · rw [hcols]
      norm_num
    · rw [hrows, hcols]
      norm_num [SIZE_MOD]
  obtain ⟨Bt, hBt, _, hrBt, hcBt, _⟩ := transpose_spec tall_wide_valid.2
  obtain ⟨At, hAt, _, hrAt, hcAt, _⟩ := transpose_spec tall_wide_valid.1
  refine ⟨tall_wide_valid.1, tall_wide_valid.2, rfl, ?_, ?_, by decide, rfl, rfl, rfl⟩
  · rw [hprod]
    rfl
  · rw [hBt, hAt]
    show Bt.operator_star At = .error .undefined
    apply operator_star_wrapped Bt At
    · rw [hcBt, hrAt]
      rfl
    · rw [hrBt, hcols]
      norm_num
    · rw [hcAt, hrows]
      norm_num
    · rw [hrBt, hcAt, hrows, hcols]
      norm_num [SIZE_MOD]

/-- C20, amended: for valid `int` matrices `a`, `b` with `a.cols == b.rows` whose product
has fewer than `2 ^ 64` elements, and for which no product `a(i,k) * b(k,j)` and no partial
sum of the accumulation leaves the range of `int`, `transpose(a * b)` and
`transpose(b) * transpose(a)` both return, have the shape `(b.cols, a.rows)`, and are
equal element by element. -/
theorem C20_transpose_product (a b : Matrix int) (ha : a.Valid) (hb : b.Valid)
    (hab : a.cols = b.rows) (hsz : a.rows * b.cols < SIZE_MOD) (hrange : a.StarInRange b) :
    ∃ P L Bt At Q, a.operator_star b = .ok P ∧ transpose P = .ok L ∧
      transpose b = .ok Bt ∧ transpose a = .ok At ∧ Bt.operator_star At = .ok Q ∧
      L.rows = b.cols ∧ L.cols = a.rows ∧ Q.rows = b.cols ∧ Q.cols = a.rows ∧
      (∀ i j, i < b.cols → j < a.rows →
        L.operator_paren i j = Q.operator_paren i j ∧ ∃ v, L.operator_paren i j = .ok v) ∧
      L = Q := by
  obtain ⟨P, Pt, Bt, At, hP, hPt, hBt, hAt, hQ, hv, hr, hc⟩ :=
    transpose_star ha hb hab hsz hrange
  refine ⟨P, Pt, Bt, At, Pt, hP, hPt, hBt, hAt, hQ, hr, hc, hr, hc, ?_, rfl⟩
  intro i j hi hj
  exact ⟨rfl, _, hv.paren_eq (by rw [hr]; exact hi) (by rw [hc]; exact hj)⟩

/-- C20, witness: `transpose([[1,2,3],[4,5,6]] * [[1,2],[3,4],[5,6]])` and the product of
the transposes in reverse order. -/
theorem C20_witness :
    (mat23.operator_star mat32 >>= transpose)
        = .ok { rows_ := 2, cols_ := 2, data_ := ints [22, 49, 28, 64] } ∧
      (transpose mat32 >>= fun bt => transpose mat23 >>= fun at_ => bt.operator_star at_)
        = .ok { rows_ := 2, cols_ := 2, data_ := ints [22, 49, 28, 64] } ∧
      ∃ P L Bt At Q, mat23.operator_star mat32 = .ok P ∧ transpose P = .ok L ∧
        transpose mat32 = .ok Bt ∧ transpose mat23 = .ok At ∧ Bt.operator_star At = .ok Q ∧
        L.rows = mat32.cols ∧ L.cols = mat23.rows ∧ Q.rows = mat32.cols ∧
        Q.cols = mat23.rows ∧
        (∀ i j, i < mat32.cols → j < mat23.rows →
          L.operator_paren i j = Q.operator_paren i j ∧ ∃ v, L.operator_paren i j = .ok v) ∧
        L = Q :=
  ⟨by decide, by decide,
    C20_transpose_product mat23 mat32 (by decide) (by decide) rfl (by decide) (by decide)⟩


end Task1
